import Mathlib

/-!
CHIP-8 interpreter core (`chip8.c`).

A shallow embedding of the interpreter state and of `initialize_chip8`,
`load_program`, `update_timers` and `emulate_cycle`, followed by theorems
about them.

Conventions of the embedding:

* the C globals become the fields of `State`; arrays are total functions on
  `Nat`, only the indices below the declared length are meaningful;
* `uint8_t` / `uint16_t` values are `Nat`s, stores truncate with `u8` / `u16`;
  `WF` records the ranges the C types guarantee;
* an array access whose index can leave the array (`memory[PC]`, `memory[I + i]`,
  `stack[SP]`) is guarded: the embedding returns `none` when the C program
  would index out of bounds (undefined behaviour; the source has no check and
  `emulate_cycle` has no error exit), see `outOfBounds`;
* `emulate_cycle_reads` is the same cycle when a load from outside an array
  delivers a value supplied by an `Oob` and has no other effect; a store
  outside an array has no result in either definition;
* a loop result that may be undefined is passed on with `Option.map`;
* `printf("BEEP!\n")` is counted in the field `beeps`;
* the value returned by `rand()` is the parameter `rnd`.
-/

namespace Chip8

/-- Conversion to `uint8_t`. -/
def u8 (n : Nat) : Nat := n % 256

/-- Conversion to `uint16_t` / `unsigned short`. -/
def u16 (n : Nat) : Nat := n % 65536

/-- Array store `a[i] = v`. -/
def write (a : Nat → Nat) (i v : Nat) : Nat → Nat :=
  fun j => if j = i then v else a j

/-- Counted loop `for (int i = 0; i < n; i++) body`. -/
def forUpTo {σ : Type} : Nat → (Nat → σ → σ) → σ → σ
  | 0, _, s => s
  | n + 1, body, s => body n (forUpTo n body s)

/-- Counted loop whose body may index out of bounds. -/
def forUpToM {σ : Type} : Nat → (Nat → σ → Option σ) → σ → Option σ
  | 0, _, s => some s
  | n + 1, body, s => (forUpToM n body s).bind (body n)

/-- The global variables of `chip8.c`, and the number of beep lines printed. -/
structure State where
  memory : Nat → Nat
  V : Nat → Nat
  I : Nat
  PC : Nat
  delay_timer : Nat
  sound_timer : Nat
  stack : Nat → Nat
  SP : Nat
  draw_flag : Bool
  gfx : Nat → Nat
  opcode : Nat
  key : Nat → Nat
  beeps : Nat

/-- Ranges guaranteed by the C types of the globals. -/
structure WF (s : State) : Prop where
  memory_lt : ∀ a, s.memory a < 256
  V_lt : ∀ i, s.V i < 256
  I_lt : s.I < 65536
  PC_lt : s.PC < 65536
  delay_lt : s.delay_timer < 256
  sound_lt : s.sound_timer < 256
  stack_lt : ∀ i, s.stack i < 65536
  SP_lt : s.SP < 256
  gfx_lt : ∀ i, s.gfx i < 256
  opcode_lt : s.opcode < 65536
  key_lt : ∀ i, s.key i < 256

/-- The built-in font, `chip8_fontset[80]`. -/
def chip8_fontset : List Nat :=
  [0xF0, 0x90, 0x90, 0x90, 0xF0,
   0x20, 0x60, 0x20, 0x20, 0x70,
   0xF0, 0x10, 0xF0, 0x80, 0xF0,
   0xF0, 0x10, 0xF0, 0x10, 0xF0,
   0x90, 0x90, 0xF0, 0x10, 0x10,
   0xF0, 0x80, 0xF0, 0x10, 0xF0,
   0xF0, 0x80, 0xF0, 0x90, 0xF0,
   0xF0, 0x10, 0x20, 0x40, 0x40,
   0xF0, 0x90, 0xF0, 0x90, 0xF0,
   0xF0, 0x90, 0xF0, 0x10, 0xF0,
   0xF0, 0x90, 0xF0, 0x90, 0x90,
   0xE0, 0x90, 0xE0, 0x90, 0xE0,
   0xF0, 0x80, 0x80, 0x80, 0xF0,
   0xE0, 0x90, 0x90, 0x90, 0xE0,
   0xF0, 0x80, 0xF0, 0x80, 0xF0,
   0xF0, 0x80, 0xF0, 0x80, 0x80]

/-- The function `initialize_chip8`, statement by statement. -/
def initialize_chip8 (s : State) : State :=
  let s := forUpTo 4096 (fun i s => { s with memory := write s.memory i 0 }) s
  let s := forUpTo 16 (fun i s => { s with V := write s.V i 0 }) s
  let s := { s with I := 0 }
  let s := { s with PC := 0x200 }
  let s := { s with delay_timer := 0 }
  let s := { s with sound_timer := 0 }
  let s := { s with SP := 0 }
  let s := { s with draw_flag := true }
  let s := forUpTo (64 * 32) (fun i s => { s with gfx := write s.gfx i 0 }) s
  let s := forUpTo 16 (fun i s => { s with stack := write s.stack i 0 }) s
  let s := forUpTo 16 (fun i s => { s with key := write s.key i 0 }) s
  forUpTo 80 (fun i s => { s with memory := write s.memory i (chip8_fontset.getD i 0) }) s

/-- The function `update_timers`. -/
def update_timers (s : State) : State :=
  let s := if s.delay_timer > 0 then { s with delay_timer := s.delay_timer - 1 } else s
  if s.sound_timer > 0 then
    let s := if s.sound_timer = 1 then { s with beeps := s.beeps + 1 } else s
    { s with sound_timer := s.sound_timer - 1 }
  else s

/-- The expression `(opcode & 0x0F00) >> 8`. -/
def opX (op : Nat) : Nat := (op &&& 0x0F00) >>> 8

/-- The expression `(opcode & 0x00F0) >> 4`. -/
def opY (op : Nat) : Nat := (op &&& 0x00F0) >>> 4

/-- The statement `PC += 2` on the 16-bit program counter. -/
def advance (k : Nat) (s : State) : State := { s with PC := u16 (s.PC + k) }

/-- How the `switch` of `emulate_cycle` is left: `done` reaches the end of the
switch (and so `update_timers`), `waiting` is the early `return` of `FX0A`. -/
inductive Step where
  | done (s : State)
  | waiting (s : State)

/-- Class `0x0000`: inner switch on `opcode & 0x000F`, without a default. -/
def exec0 (s : State) : Option Step :=
  if s.opcode &&& 0x000F = 0x0000 then
    let s := forUpTo (64 * 32) (fun i s => { s with gfx := write s.gfx i 0 }) s
    let s := { s with draw_flag := true }
    some (.done (advance 2 s))
  else if s.opcode &&& 0x000F = 0x000E then
    let s := { s with SP := u8 (s.SP + 255) }
    if s.SP < 16 then
      let s := { s with PC := s.stack s.SP }
      some (.done (advance 2 s))
    else none
  else some (.done s)

/-- Class `0x8000`: inner switch on `opcode & 0x000F` (the `PC += 2` that
follows the inner switch is in `execute`). -/
def exec8 (s : State) : State :=
  let x := opX s.opcode
  let y := opY s.opcode
  let n := s.opcode &&& 0x000F
  if n = 0x0000 then { s with V := write s.V x (s.V y) }
  else if n = 0x0001 then { s with V := write s.V x (u8 (s.V x ||| s.V y)) }
  else if n = 0x0002 then { s with V := write s.V x (u8 (s.V x &&& s.V y)) }
  else if n = 0x0003 then { s with V := write s.V x (u8 (s.V x ^^^ s.V y)) }
  else if n = 0x0004 then
    let sum := u16 (s.V x + s.V y)
    let s := { s with V := write s.V 0xF (if sum > 0xFF then 1 else 0) }
    { s with V := write s.V x (u8 (sum &&& 0xFF)) }
  else if n = 0x0005 then
    let s := { s with V := write s.V 0xF (if s.V x ≥ s.V y then 1 else 0) }
    { s with V := write s.V x (u8 (s.V x + 256 - s.V y)) }
  else if n = 0x0006 then
    let s := { s with V := write s.V 0xF (s.V x &&& 0x01) }
    { s with V := write s.V x (u8 (s.V x >>> 1)) }
  else if n = 0x0007 then
    let s := { s with V := write s.V 0xF (if s.V y ≥ s.V x then 1 else 0) }
    { s with V := write s.V x (u8 (s.V y + 256 - s.V x)) }
  else if n = 0x000E then
    let s := { s with V := write s.V 0xF ((s.V x &&& 0x80) >>> 7) }
    { s with V := write s.V x (u8 (s.V x <<< 1)) }
  else s

/-- Display index `x + (y * 64)` of sprite column `xLine`, row `yLine`. -/
def gfxIndex (X Y xLine yLine : Nat) : Nat :=
  (X + xLine) % 64 + ((Y + yLine) % 32) * 64

/-- Body of the inner loop of the draw instruction. -/
def drawPixel (X Y pixel yLine xLine : Nat) (s : State) : State :=
  if pixel &&& (0x80 >>> xLine) ≠ 0 then
    let s := if s.gfx (gfxIndex X Y xLine yLine) = 1 then { s with V := write s.V 0xF 1 } else s
    { s with gfx := write s.gfx (gfxIndex X Y xLine yLine)
                      (u8 (s.gfx (gfxIndex X Y xLine yLine) ^^^ 1)) }
  else s

/-- Body of the outer loop of the draw instruction: reads `memory[I + yLine]`. -/
def drawRow (X Y yLine : Nat) (s : State) : Option State :=
  if s.I + yLine < 4096 then
    some (forUpTo 8 (drawPixel X Y (s.memory (s.I + yLine)) yLine) s)
  else none

/-- Class `0xD000`. -/
def execD (s : State) : Option Step :=
  let X := s.V (opX s.opcode)
  let Y := s.V (opY s.opcode)
  let height := u8 (s.opcode &&& 0x000F)
  let s := { s with V := write s.V 0xF 0 }
  (forUpToM height (drawRow X Y) s).map fun s =>
    let s := { s with draw_flag := true }
    .done (advance 2 s)

/-- Class `0xE000`: inner switch on `opcode & 0x00FF`, without a default. -/
def execE (s : State) : Step :=
  if s.opcode &&& 0x00FF = 0x009E then
    if s.key (s.V (opX s.opcode) &&& 0x0F) ≠ 0 then .done (advance 4 s) else .done (advance 2 s)
  else if s.opcode &&& 0x00FF = 0x00A1 then
    if s.key (s.V (opX s.opcode) &&& 0x0F) = 0 then .done (advance 4 s) else .done (advance 2 s)
  else .done s

/-- The key scan of `FX0A`: the index at which the loop breaks, scanning `n`
indices from `i` upwards, or `none` when the loop runs to its end. -/
def firstKey (key : Nat → Nat) : Nat → Nat → Option Nat
  | 0, _ => none
  | n + 1, i => if key i ≠ 0 then some i else firstKey key n (i + 1)

/-- Class `0xF000`: inner switch on `opcode & 0x00FF`, without a default. -/
def execF (s : State) : Option Step :=
  let x := opX s.opcode
  let n := s.opcode &&& 0x00FF
  if n = 0x0007 then some (.done (advance 2 { s with V := write s.V x s.delay_timer }))
  else if n = 0x000A then
    match firstKey s.key 16 0 with
    | some i => some (.done (advance 2 { s with V := write s.V x (u8 i) }))
    | none => some (.waiting s)
  else if n = 0x0015 then some (.done (advance 2 { s with delay_timer := s.V x }))
  else if n = 0x0018 then some (.done (advance 2 { s with sound_timer := s.V x }))
  else if n = 0x001E then some (.done (advance 2 { s with I := u16 (s.I + s.V x) }))
  else if n = 0x0029 then some (.done (advance 2 { s with I := u16 ((s.V x &&& 0x0F) * 5) }))
  else if n = 0x0033 then
    if s.I + 2 < 4096 then
      let s := { s with memory := write s.memory s.I (u8 (s.V x / 100)) }
      let s := { s with memory := write s.memory (s.I + 1) (u8 ((s.V x / 10) % 10)) }
      let s := { s with memory := write s.memory (s.I + 2) (u8 (s.V x % 10)) }
      some (.done (advance 2 s))
    else none
  else if n = 0x0055 then
    (forUpToM (x + 1) (fun i s =>
        if s.I + i < 4096 then some { s with memory := write s.memory (s.I + i) (s.V i) }
        else none) s).map fun s => .done (advance 2 s)
  else if n = 0x0065 then
    (forUpToM (x + 1) (fun i s =>
        if s.I + i < 4096 then some { s with V := write s.V i (s.memory (s.I + i)) }
        else none) s).map fun s => .done (advance 2 s)
  else some (.done s)

/-- The outer `switch (opcode & 0xF000)` of `emulate_cycle`. -/
def execute (rnd : Nat) (s : State) : Option Step :=
  let op := s.opcode
  let c := op &&& 0xF000
  if c = 0x0000 then exec0 s
  else if c = 0x1000 then some (.done { s with PC := u16 (op &&& 0x0FFF) })
  else if c = 0x2000 then
    if s.SP < 16 then
      let s := { s with stack := write s.stack s.SP s.PC }
      let s := { s with SP := u8 (s.SP + 1) }
      some (.done { s with PC := u16 (op &&& 0x0FFF) })
    else none
  else if c = 0x3000 then
    if s.V (opX op) = op &&& 0x00FF then some (.done (advance 4 s)) else some (.done (advance 2 s))
  else if c = 0x4000 then
    if s.V (opX op) ≠ op &&& 0x00FF then some (.done (advance 4 s)) else some (.done (advance 2 s))
  else if c = 0x5000 then
    if s.V (opX op) = s.V (opY op) then some (.done (advance 4 s)) else some (.done (advance 2 s))
  else if c = 0x6000 then
    some (.done (advance 2 { s with V := write s.V (opX op) (u8 (op &&& 0x00FF)) }))
  else if c = 0x7000 then
    some (.done (advance 2 { s with V := write s.V (opX op) (u8 (s.V (opX op) + (op &&& 0x00FF))) }))
  else if c = 0x8000 then some (.done (advance 2 (exec8 s)))
  else if c = 0x9000 then
    if s.V (opX op) ≠ s.V (opY op) then some (.done (advance 4 s)) else some (.done (advance 2 s))
  else if c = 0xA000 then some (.done (advance 2 { s with I := u16 (op &&& 0x0FFF) }))
  else if c = 0xB000 then some (.done { s with PC := u16 (s.V 0 + (op &&& 0x0FFF)) })
  else if c = 0xC000 then
    some (.done (advance 2 { s with V := write s.V (opX op) (u8 (rnd &&& (op &&& 0x00FF))) }))
  else if c = 0xD000 then execD s
  else if c = 0xE000 then some (execE s)
  else if c = 0xF000 then execF s
  else some (.done s)

/-- The fetch `opcode = (memory[PC] << 8) | memory[PC + 1]`. -/
def fetch (s : State) : Nat := u16 ((s.memory s.PC <<< 8) ||| s.memory (s.PC + 1))

/-- The function `emulate_cycle`: fetch, decode and execute, then the timer
update unless the cycle returned early. -/
def emulate_cycle (rnd : Nat) (s : State) : Option State :=
  if s.PC + 1 < 4096 then
    match execute rnd { s with opcode := fetch s } with
    | none => none
    | some (.done t) => some (update_timers t)
    | some (.waiting t) => some t
  else none

/-! ## Specification vocabulary for the draw instruction -/

/-- Display index `i` is covered by a set bit among the first `j` columns of
sprite row `r` whose byte is `p`, for a sprite placed at `(X, Y)`. -/
def hitsRow (X Y p r j i : Nat) : Prop :=
  ∃ c, c < j ∧ p.testBit (7 - c) = true ∧ gfxIndex X Y c r = i

/-- Display index `i` is covered by a set bit of the first `N` rows of the
sprite stored at `mem[I ..]`, placed at `(X, Y)`. -/
def hits (mem : Nat → Nat) (I X Y N i : Nat) : Prop :=
  ∃ r, r < N ∧ hitsRow X Y (mem (I + r)) r 8 i

/-- Cell `(x, y)` is covered by a set bit of the `N`-row sprite at `memory[I ..]`
drawn at `(VX, VY)`: there is a row `r < N` and a column `c < 8` with
`(VX + c) mod 64 = x`, `(VY + r) mod 32 = y` and bit `7 - c` of `memory[I + r]` set. -/
def spriteCovers (s : State) (VX VY N x y : Nat) : Prop :=
  ∃ r, r < N ∧ ∃ c, c < 8 ∧ (VX + c) % 64 = x ∧ (VY + r) % 32 = y ∧
    (s.memory (s.I + r)).testBit (7 - c) = true

instance (X Y p r j i : Nat) : Decidable (hitsRow X Y p r j i) := by
  unfold hitsRow; infer_instance

instance (mem : Nat → Nat) (I X Y N i : Nat) : Decidable (hits mem I X Y N i) := by
  unfold hits; infer_instance

instance (s : State) (VX VY N x y : Nat) : Decidable (spriteCovers s VX VY N x y) := by
  unfold spriteCovers; infer_instance

/-- The draw collides: some covered cell holds 1 before the draw. -/
def collides (s : State) (VX VY N : Nat) : Prop :=
  ∃ x, x < 64 ∧ ∃ y, y < 32 ∧ spriteCovers s VX VY N x y ∧ s.gfx (x + 64 * y) = 1

instance (s : State) (VX VY N : Nat) : Decidable (collides s VX VY N) := by
  unfold collides; infer_instance

/-- State `t` is state `s` after XOR-ing the display cells selected by `hit`:
selected cells are flipped, the others kept, `VF` becomes 1 when a selected
cell held 1 and is kept otherwise, nothing else changes. -/
structure Drawn (hit : Nat → Prop) (s t : State) : Prop where
  flipped : ∀ i, hit i → t.gfx i = u8 (s.gfx i ^^^ 1)
  kept : ∀ i, ¬ hit i → t.gfx i = s.gfx i
  regs : ∀ k, k ≠ 0xF → t.V k = s.V k
  collide : (∃ i, hit i ∧ s.gfx i = 1) → t.V 0xF = 1
  clean : ¬ (∃ i, hit i ∧ s.gfx i = 1) → t.V 0xF = s.V 0xF
  frame : t = { s with gfx := t.gfx, V := t.V }

/-! ## Concrete states used to instantiate the theorems -/

/-- A zeroed machine with `PC = 0x200`. -/
def blank : State :=
  { memory := fun _ => 0, V := fun _ => 0, I := 0, PC := 0x200, delay_timer := 0,
    sound_timer := 0, stack := fun _ => 0, SP := 0, draw_flag := false, gfx := fun _ => 0,
    opcode := 0, key := fun _ => 0, beeps := 0 }

/-- Store the bytes `bs` at `memory[a ..]`. -/
def poke (s : State) (a : Nat) : List Nat → State
  | [] => s
  | b :: bs => poke { s with memory := write s.memory a b } (a + 1) bs

/-- `D011` at `0x200` with `V0 = 63`, `V1 = 0`, and the one-row sprite `0xFF` at `I = 0x202`. -/
def drawDemo : State :=
  { poke blank 0x200 [0xD0, 0x11, 0xFF] with V := write (fun _ => 0) 0 63, I := 0x202 }

/-- `D011` at `0x200` and again at `0x202`, `V0 = 5`, `V1 = 3`, and the one-row,
one-pixel sprite `0x80` at `I = 0x204`. -/
def drawTwiceDemo : State :=
  { poke blank 0x200 [0xD0, 0x11, 0xD0, 0x11, 0x80] with
    V := write (write (fun _ => 0) 0 5) 1 3, I := 0x204 }

/-- The `N`-row sprite at `memory[I ..]` has at least one set bit. -/
def spriteNonEmpty (s : State) (N : Nat) : Prop :=
  ∃ r, r < N ∧ ∃ c, c < 8 ∧ (s.memory (s.I + r)).testBit (7 - c) = true

instance (s : State) (N : Nat) : Decidable (spriteNonEmpty s N) := by
  unfold spriteNonEmpty; infer_instance

/-- `8F04` at `0x200` with `VF = 0xFF` and `V0 = 0x01`. -/
def addFlagDemo : State :=
  { poke blank 0x200 [0x8F, 0x04] with V := write (write (fun _ => 0) 0xF 0xFF) 0 0x01 }

/-- `8014` at `0x200` with `V0 = 0xFF` and `V1 = 0x01`. -/
def addDemo : State :=
  { poke blank 0x200 [0x80, 0x14] with V := write (write (fun _ => 0) 0 0xFF) 1 0x01 }

/-- `80F5` at `0x200` with `V0 = 0x05` and `VF = 0x03`. -/
def subFlagDemo : State :=
  { poke blank 0x200 [0x80, 0xF5] with V := write (write (fun _ => 0) 0 0x05) 0xF 0x03 }

/-- `8015` at `0x200` with `V0 = 0x03` and `V1 = 0x05`. -/
def subDemo : State :=
  { poke blank 0x200 [0x80, 0x15] with V := write (write (fun _ => 0) 0 0x03) 1 0x05 }

/-- `2300` (call `0x300`) at `0x200`, `00EE` (return) at `0x300`, and `SP = 2`. -/
def callDemo : State :=
  { poke (poke blank 0x200 [0x23, 0x00]) 0x300 [0x00, 0xEE] with SP := 2 }

/-- `F30A` at `0x200`, no key pressed, delay timer 5 and sound timer 3. -/
def keyWaitDemo : State :=
  { poke blank 0x200 [0xF3, 0x0A] with delay_timer := 5, sound_timer := 3 }

/-- `F30A` at `0x200` with the keys 7 and 9 pressed. -/
def keyPressedDemo : State :=
  { poke blank 0x200 [0xF3, 0x0A] with key := write (write (fun _ => 0) 9 1) 7 1 }

/-- The opcode `op` is `FXlo`: class `0xF000` with low byte `lo`. -/
def isFX (op lo : Nat) : Prop := op &&& 0xF000 = 0xF000 ∧ op &&& 0x00FF = lo

instance (op lo : Nat) : Decidable (isFX op lo) := by
  unfold isFX; infer_instance

/-- The cycle waits: the opcode at `PC` is `FX0A` and no key flag is set. -/
def blocked (s : State) : Prop := isFX (fetch s) 0x0A ∧ ∀ i, i < 16 → s.key i = 0

instance (s : State) : Decidable (blocked s) := by
  unfold blocked; infer_instance

/-- Both timers and the beep count agree in `s` and `t`. -/
def sameTimers (s t : State) : Prop :=
  t.delay_timer = s.delay_timer ∧ t.sound_timer = s.sound_timer ∧ t.beeps = s.beeps

/-- The state carried by a `Step`. -/
def Step.state : Step → State
  | .done s => s
  | .waiting s => s

/-- `6005` (load immediate) at `0x200` with delay timer 9 and sound timer 1. -/
def timerDemo : State :=
  { poke blank 0x200 [0x60, 0x05] with delay_timer := 9, sound_timer := 1 }

/-- `0001` at `0x200` with delay timer 9 and sound timer 1. -/
def unknown0Demo : State :=
  { poke blank 0x200 [0x00, 0x01] with delay_timer := 9, sound_timer := 1 }

/-- `E300` at `0x200` with delay timer 9 and sound timer 1. -/
def unknownEDemo : State :=
  { poke blank 0x200 [0xE3, 0x00] with delay_timer := 9, sound_timer := 1 }

/-- `F300` at `0x200` with delay timer 9 and sound timer 1. -/
def unknownFDemo : State :=
  { poke blank 0x200 [0xF3, 0x00] with delay_timer := 9, sound_timer := 1 }

/-- `8128` at `0x200` with delay timer 9 and sound timer 1. -/
def unknown8Demo : State :=
  { poke blank 0x200 [0x81, 0x28] with delay_timer := 9, sound_timer := 1 }

/-- `F233` at `0x200` with `V2 = 254` and `I = 0x300`. -/
def bcdDemo : State :=
  { poke blank 0x200 [0xF2, 0x33] with V := write (fun _ => 0) 2 254, I := 0x300 }

/-- `8126` at `0x200` with `V1 = 0x85` and `V2 = 0x33`. -/
def shiftRightDemo : State :=
  { poke blank 0x200 [0x81, 0x26] with V := write (write (fun _ => 0) 1 0x85) 2 0x33 }

/-- `812E` at `0x200` with `V1 = 0x85` and `V2 = 0x33`. -/
def shiftLeftDemo : State :=
  { poke blank 0x200 [0x81, 0x2E] with V := write (write (fun _ => 0) 1 0x85) 2 0x33 }

/-- The five bytes of the built-in glyph for the hexadecimal digit `d`. -/
def glyph (d : Nat) : List Nat := (chip8_fontset.drop (5 * d)).take 5

/-- `F429` at `0x200` with `V4 = 0x3A`, on a machine that holds the font. -/
def fontDemo : State :=
  { poke { blank with memory := fun a => chip8_fontset.getD a 0 } 0x200 [0xF4, 0x29] with
    V := write (fun _ => 0) 4 0x3A }

/-- Registers, memory, `I`, the stack and the display agree in `s` and `t`. -/
def skipFrame (s t : State) : Prop :=
  t.V = s.V ∧ t.memory = s.memory ∧ t.I = s.I ∧ t.stack = s.stack ∧ t.SP = s.SP ∧
    t.gfx = s.gfx

/-- The opcode bytes `hi lo` at `0x200` with `V1 = 7` and `V2 = 9`. -/
def skipDemo (hi lo : Nat) : State :=
  { poke blank 0x200 [hi, lo] with V := write (write (fun _ => 0) 1 7) 2 9 }

/-- `F255` at `0x200`, `F265` at `0x202`, `V0..V3 = 11, 22, 33, 44` and `I = 0x300`. -/
def dumpDemo : State :=
  { poke blank 0x200 [0xF2, 0x55, 0xF2, 0x65] with
    V := write (write (write (write (fun _ => 0) 0 11) 1 22) 2 33) 3 44, I := 0x300 }

/-! ## Program loading, the host loop and out-of-bounds accesses -/

/-- What the C library delivers for an opened program file: the bytes `fread`
can deliver, and the value of `ferror` after the read. -/
structure ProgramFile where
  bytes : List Nat
  readError : Bool

/-- The function `load_program`. `file = none` is a failing `fopen`; the
result `none` is `exit(EXIT_FAILURE)`. `fread` stores at most `4096 - 0x200`
bytes from `memory[0x200]` on; the line printed to stdout is not recorded. -/
def load_program (file : Option ProgramFile) (s : State) : Option State :=
  match file with
  | none => none
  | some f =>
    let bytes_read := min f.bytes.length (4096 - 0x200)
    let s := forUpTo bytes_read
      (fun i s => { s with memory := write s.memory (0x200 + i) (f.bytes.getD i 0) }) s
    if bytes_read = 0 ∧ f.readError = true then none else some s

/-- The cycle indexes an array outside its bounds: the embedding has no result
for it. The source has no bounds check and no error exit on these paths. -/
def outOfBounds (o : Option State) : Prop := o.isNone = true

instance (o : Option State) : Decidable (outOfBounds o) := by
  unfold outOfBounds; infer_instance

/-- The two indices of `memory` read by the fetch, `memory[PC]` and `memory[PC + 1]`. -/
def fetchIndices (s : State) : Nat × Nat := (s.PC, s.PC + 1)

/-- The index of `stack` used by the instruction at `PC`: `stack[SP] = PC` for
the call `2NNN`, `PC = stack[SP]` after `SP--` (on 8 bits) for a return. -/
def stackIndex (s : State) : Option Nat :=
  if fetch s &&& 0xF000 = 0x2000 then some s.SP
  else if fetch s &&& 0xF000 = 0x0000 ∧ fetch s &&& 0x000F = 0x000E then some (u8 (s.SP + 255))
  else none

/-- States of the machine in `main`: after `initialize_chip8`, after
`load_program`, after each `emulate_cycle` that stays inside the arrays, after
the host has written the key flags, and after the host has cleared the redraw
flag. -/
inductive Reachable : State → Prop where
  | reset (s : State) : Reachable (initialize_chip8 s)
  | load (file : Option ProgramFile) (s t : State) :
      Reachable s → load_program file s = some t → Reachable t
  | cycle (rnd : Nat) (s t : State) : Reachable s → emulate_cycle rnd s = some t → Reachable t
  | keys (s : State) (k : Nat → Nat) : Reachable s → Reachable { s with key := k }
  | redrawn (s : State) : Reachable s → Reachable { s with draw_flag := false }

/-- A program file of 3585 bytes, all `0x01`, read without error. -/
def longFile : ProgramFile := { bytes := List.replicate 3585 0x01, readError := false }

/-- A program file of the three bytes `0x60, 0x05, 0x12`, read without error. -/
def shortFile : ProgramFile := { bytes := [0x60, 0x05, 0x12], readError := false }

/-- A zeroed machine with `PC = 4095`, the last byte of memory. -/
def pcEndDemo : State := { blank with PC := 4095 }

/-- The call `2300` at `0x200` with `SP = 16`. -/
def overflowDemo : State := { poke blank 0x200 [0x23, 0x00] with SP := 16 }

/-- The return `00EE` at `0x200` with `SP = 0`. -/
def underflowDemo : State := poke blank 0x200 [0x00, 0xEE]

/-- The opcode `0000` at `0x200` (zeroed memory) with the last display cell set. -/
def zeroOpcodeDemo : State := { blank with gfx := write (fun _ => 0) 2047 1 }

/-- The stack and the stack pointer agree in `s` and `t`. -/
def sameStack (s t : State) : Prop := t.SP = s.SP ∧ t.stack = s.stack

/-- The display buffer and the redraw flag agree in `s` and `t`. -/
def sameDisplay (s t : State) : Prop := t.gfx = s.gfx ∧ t.draw_flag = s.draw_flag

/-- Every cell of the display buffer holds 0 or 1. -/
def binaryDisplay (s : State) : Prop := ∀ i, i < 64 * 32 → s.gfx i = 0 ∨ s.gfx i = 1

/-! ## Reads outside an array

The source tests no index. `emulate_cycle` above has no result for a cycle that
indexes an array outside its bounds, whether it reads or stores there. The
definitions below are the same cycle under the reading in which a load from
outside an array delivers some value and has no other effect: the value is not
determined by the source and is supplied by an `Oob`. A store outside an array
has no result in either reading. The two readings agree on every cycle that
stays inside the arrays (`emulate_cycle_reads_agrees`). -/

/-- What a load from outside an array delivers in state `s`: `memory s a` for
`memory[a]` with `a ≥ 4096`, `stack s i` for `stack[i]` with `i ≥ 16`. -/
structure Oob where
  memory : State → Nat → Nat
  stack : State → Nat → Nat

/-- The load `memory[a]` (an `unsigned char`). -/
def readMemory (o : Oob) (s : State) (a : Nat) : Nat :=
  if a < 4096 then s.memory a else u8 (o.memory s a)

/-- The load `stack[i]` (an `unsigned short`). -/
def readStack (o : Oob) (s : State) (i : Nat) : Nat :=
  if i < 16 then s.stack i else u16 (o.stack s i)

/-- The fetch `opcode = (memory[PC] << 8) | memory[PC + 1]`, for every `PC`. -/
def fetch_reads (o : Oob) (s : State) : Nat :=
  u16 ((readMemory o s s.PC <<< 8) ||| readMemory o s (s.PC + 1))

/-- Class `0x0000`, the return loading `stack[SP]` for every `SP`. -/
def exec0_reads (o : Oob) (s : State) : Step :=
  if s.opcode &&& 0x000F = 0x0000 then
    let s := forUpTo (64 * 32) (fun i s => { s with gfx := write s.gfx i 0 }) s
    let s := { s with draw_flag := true }
    .done (advance 2 s)
  else if s.opcode &&& 0x000F = 0x000E then
    let s := { s with SP := u8 (s.SP + 255) }
    let s := { s with PC := readStack o s s.SP }
    .done (advance 2 s)
  else .done s

/-- Body of the outer loop of the draw instruction, loading `memory[I + yLine]`
for every `I`. -/
def drawRow_reads (o : Oob) (X Y yLine : Nat) (s : State) : State :=
  forUpTo 8 (drawPixel X Y (readMemory o s (s.I + yLine)) yLine) s

/-- Class `0xD000`, the sprite rows loaded for every `I`. -/
def execD_reads (o : Oob) (s : State) : Step :=
  let X := s.V (opX s.opcode)
  let Y := s.V (opY s.opcode)
  let height := u8 (s.opcode &&& 0x000F)
  let s := { s with V := write s.V 0xF 0 }
  let s := forUpTo height (drawRow_reads o X Y) s
  let s := { s with draw_flag := true }
  .done (advance 2 s)

/-- Class `0xF000`: `FX65` loads `memory[I + i]` for every `I`; the other
cases, among them the stores of `FX33` and `FX55`, are those of `execF`. -/
def execF_reads (o : Oob) (s : State) : Option Step :=
  if s.opcode &&& 0x00FF = 0x0065 then
    let s := forUpTo (opX s.opcode + 1)
      (fun i s => { s with V := write s.V i (readMemory o s (s.I + i)) }) s
    some (.done (advance 2 s))
  else execF s

/-- The outer switch: the classes that load from `stack` or `memory` are
replaced, every other class (among them the call, which stores to
`stack[SP]`) is that of `execute`. -/
def execute_reads (o : Oob) (rnd : Nat) (s : State) : Option Step :=
  if s.opcode &&& 0xF000 = 0x0000 then some (exec0_reads o s)
  else if s.opcode &&& 0xF000 = 0xD000 then some (execD_reads o s)
  else if s.opcode &&& 0xF000 = 0xF000 then execF_reads o s
  else execute rnd s

/-- The function `emulate_cycle` when loads from outside an array deliver the
values of `o`. -/
def emulate_cycle_reads (o : Oob) (rnd : Nat) (s : State) : Option State :=
  match execute_reads o rnd { s with opcode := fetch_reads o s } with
  | none => none
  | some (.done t) => some (update_timers t)
  | some (.waiting t) => some t

/-- The state in which `emulate_cycle` returns: after `update_timers` at the
end of the switch, unchanged on the early return. -/
def Step.finish : Step → State
  | .done s => update_timers s
  | .waiting s => s

/-! ## Basic lemmas -/

@[simp] theorem write_same (a : Nat → Nat) (i v : Nat) : write a i v i = v := by
  simp [write]

@[simp] theorem write_other (a : Nat → Nat) (i v j : Nat) (h : j ≠ i) : write a i v j = a j := by
  simp [write, h]

theorem write_apply (a : Nat → Nat) (i v j : Nat) :
    write a i v j = if j = i then v else a j := rfl

/-! ## The initialisation loops -/

theorem forUpTo_memory (n : Nat) (f : Nat → Nat) (s : State) :
    forUpTo n (fun i s => { s with memory := write s.memory i (f i) }) s
      = { s with memory := fun a => if a < n then f a else s.memory a } := by
  induction n with
  | zero => simp [forUpTo]
  | succ n ih =>
    simp only [forUpTo, ih]
    congr 1
    funext a
    by_cases h : a = n
    · subst h; simp
    · have : a < n + 1 ↔ a < n := by omega
      simp [write_apply, h, this]

theorem forUpTo_V (n : Nat) (f : Nat → Nat) (s : State) :
    forUpTo n (fun i s => { s with V := write s.V i (f i) }) s
      = { s with V := fun a => if a < n then f a else s.V a } := by
  induction n with
  | zero => simp [forUpTo]
  | succ n ih =>
    simp only [forUpTo, ih]
    congr 1
    funext a
    by_cases h : a = n
    · subst h; simp
    · have : a < n + 1 ↔ a < n := by omega
      simp [write_apply, h, this]

theorem forUpTo_gfx (n : Nat) (f : Nat → Nat) (s : State) :
    forUpTo n (fun i s => { s with gfx := write s.gfx i (f i) }) s
      = { s with gfx := fun a => if a < n then f a else s.gfx a } := by
  induction n with
  | zero => simp [forUpTo]
  | succ n ih =>
    simp only [forUpTo, ih]
    congr 1
    funext a
    by_cases h : a = n
    · subst h; simp
    · have : a < n + 1 ↔ a < n := by omega
      simp [write_apply, h, this]

theorem forUpTo_stack (n : Nat) (f : Nat → Nat) (s : State) :
    forUpTo n (fun i s => { s with stack := write s.stack i (f i) }) s
      = { s with stack := fun a => if a < n then f a else s.stack a } := by
  induction n with
  | zero => simp [forUpTo]
  | succ n ih =>
    simp only [forUpTo, ih]
    congr 1
    funext a
    by_cases h : a = n
    · subst h; simp
    · have : a < n + 1 ↔ a < n := by omega
      simp [write_apply, h, this]

theorem forUpTo_key (n : Nat) (f : Nat → Nat) (s : State) :
    forUpTo n (fun i s => { s with key := write s.key i (f i) }) s
      = { s with key := fun a => if a < n then f a else s.key a } := by
  induction n with
  | zero => simp [forUpTo]
  | succ n ih =>
    simp only [forUpTo, ih]
    congr 1
    funext a
    by_cases h : a = n
    · subst h; simp
    · have : a < n + 1 ↔ a < n := by omega
      simp [write_apply, h, this]

/-- Closed form of the display clear loop. -/
theorem clear_gfx_eq (s : State) :
    forUpTo (64 * 32) (fun i s => { s with gfx := write s.gfx i 0 }) s
      = { s with gfx := fun a => if a < 64 * 32 then 0 else s.gfx a } :=
  forUpTo_gfx (64 * 32) (fun _ => 0) s

/-- Closed form of the state left by `initialize_chip8`. -/
theorem initialize_chip8_eq (s : State) :
    initialize_chip8 s =
      { memory := fun a => if a < 80 then chip8_fontset.getD a 0
                           else if a < 4096 then 0 else s.memory a
        V := fun i => if i < 16 then 0 else s.V i
        I := 0
        PC := 0x200
        delay_timer := 0
        sound_timer := 0
        stack := fun i => if i < 16 then 0 else s.stack i
        SP := 0
        draw_flag := true
        gfx := fun i => if i < 2048 then 0 else s.gfx i
        opcode := s.opcode
        key := fun i => if i < 16 then 0 else s.key i
        beeps := s.beeps } := by
  simp only [initialize_chip8]
  rw [forUpTo_memory 4096 (fun _ => 0), forUpTo_V 16 (fun _ => 0)]
  simp only []
  rw [forUpTo_gfx (64 * 32) (fun _ => 0)]
  simp only []
  rw [forUpTo_stack 16 (fun _ => 0)]
  simp only []
  rw [forUpTo_key 16 (fun _ => 0)]
  simp only []
  rw [forUpTo_memory 80 (fun i => chip8_fontset.getD i 0)]

/-! ## C1: reset -/

/-- C1. After `initialize_chip8`, from any prior state: `memory[0..80)` is the
font table byte for byte, every memory byte at 80..4095 is 0, `PC = 0x200`,
`V0..VF`, `I`, `SP` and both timers are 0, the 16 stack slots, the 2048 display
cells and the 16 key flags are 0, and the redraw flag is set. -/
theorem initialize_chip8_spec (s : State) :
    (List.range 80).map (initialize_chip8 s).memory = chip8_fontset ∧
    (∀ a, 80 ≤ a → a < 4096 → (initialize_chip8 s).memory a = 0) ∧
    (initialize_chip8 s).PC = 0x200 ∧
    (∀ i, i < 16 → (initialize_chip8 s).V i = 0) ∧
    (initialize_chip8 s).I = 0 ∧
    (initialize_chip8 s).SP = 0 ∧
    (initialize_chip8 s).delay_timer = 0 ∧
    (initialize_chip8 s).sound_timer = 0 ∧
    (∀ i, i < 16 → (initialize_chip8 s).stack i = 0) ∧
    (∀ i, i < 64 * 32 → (initialize_chip8 s).gfx i = 0) ∧
    (∀ i, i < 16 → (initialize_chip8 s).key i = 0) ∧
    (initialize_chip8 s).draw_flag = true := by
  rw [initialize_chip8_eq]
  refine ⟨?_, ?_, rfl, ?_, rfl, rfl, rfl, rfl, ?_, ?_, ?_, rfl⟩
  · apply List.ext_getElem
    · simp [chip8_fontset]
    · intro i h1 h2
      have hi : i < 80 := by simpa using h1
      simp [hi, List.getD_eq_getElem?_getD, List.getElem?_eq_getElem h2]
  · intro a h1 h2
    have : ¬ a < 80 := by omega
    simp [this, h2]
  · intro i hi; simp [hi]
  · intro i hi; simp [hi]
  · intro i hi
    have : i < 2048 := by omega
    simp [this]
  · intro i hi; simp [hi]

/-! ## Decoding -/

theorem shiftRight_and (a b i : Nat) : (a &&& b) >>> i = a >>> i &&& b >>> i := by
  apply Nat.eq_of_testBit_eq
  intro j
  simp

theorem and_000F (op : Nat) : op &&& 0x000F = op % 16 :=
  Nat.and_pow_two_sub_one_eq_mod op 4

theorem and_00FF (op : Nat) : op &&& 0x00FF = op % 256 :=
  Nat.and_pow_two_sub_one_eq_mod op 8

theorem and_0FFF (op : Nat) : op &&& 0x0FFF = op % 4096 :=
  Nat.and_pow_two_sub_one_eq_mod op 12

theorem opX_eq (op : Nat) : opX op = op / 256 % 16 := by
  unfold opX
  rw [shiftRight_and, Nat.shiftRight_eq_div_pow]
  exact Nat.and_pow_two_sub_one_eq_mod (op / 2 ^ 8) 4

theorem opY_eq (op : Nat) : opY op = op / 16 % 16 := by
  unfold opY
  rw [shiftRight_and, Nat.shiftRight_eq_div_pow]
  exact Nat.and_pow_two_sub_one_eq_mod (op / 2 ^ 4) 4

theorem and_F000 (op : Nat) : op &&& 0xF000 = op / 4096 % 16 * 4096 := by
  have h1 : (op &&& 0xF000) % 4096 = 0 := by
    rw [← and_0FFF, Nat.and_assoc]
    exact Nat.and_zero op
  have h2 : (op &&& 0xF000) / 4096 = op / 4096 % 16 := by
    have h := shiftRight_and op 0xF000 12
    rw [Nat.shiftRight_eq_div_pow, Nat.shiftRight_eq_div_pow] at h
    rw [show (4096 : Nat) = 2 ^ 12 from rfl, h]
    exact Nat.and_pow_two_sub_one_eq_mod (op / 2 ^ 12) 4
  omega

/-- Value of the fetched opcode on bytes. -/
theorem fetch_eq (s : State) (h0 : s.memory s.PC < 256) (h1 : s.memory (s.PC + 1) < 256) :
    fetch s = s.memory s.PC * 256 + s.memory (s.PC + 1) := by
  unfold fetch u16
  rw [Nat.shiftLeft_eq, Nat.mul_comm, ← Nat.mul_add_lt_is_or (i := 8) h1]
  have : (2 : Nat) ^ 8 = 256 := rfl
  omega

/-! ## The draw loops -/

theorem and_two_pow_ne_zero (n k : Nat) : n &&& 2 ^ k ≠ 0 ↔ n.testBit k = true := by
  constructor
  · intro h
    by_contra hb
    apply h
    apply Nat.eq_of_testBit_eq
    intro j
    by_cases hj : k = j
    · subst hj; simp [hb]
    · simp [Nat.testBit_two_pow, hj]
  · intro hb h
    have h2 := congrArg (fun m => m.testBit k) h
    simp [hb] at h2

theorem pixel_mask (c : Nat) (hc : c < 8) : 0x80 >>> c = 2 ^ (7 - c) := by
  interval_cases c <;> rfl

theorem pixel_test (p c : Nat) (hc : c < 8) :
    p &&& (0x80 >>> c) ≠ 0 ↔ p.testBit (7 - c) = true := by
  rw [pixel_mask c hc]
  exact and_two_pow_ne_zero p (7 - c)

theorem gfxIndex_inj (X Y c c' r r' : Nat) (hc : c < 64) (hc' : c' < 64)
    (hr : r < 32) (hr' : r' < 32) (h : gfxIndex X Y c r = gfxIndex X Y c' r') :
    c = c' ∧ r = r' := by
  unfold gfxIndex at h
  omega

theorem gfxIndex_inj_col (X Y c c' r : Nat) (hc : c < 64) (hc' : c' < 64)
    (h : gfxIndex X Y c r = gfxIndex X Y c' r) : c = c' := by
  unfold gfxIndex at h
  omega

theorem gfxIndex_lt (X Y c r : Nat) : gfxIndex X Y c r < 2048 := by
  unfold gfxIndex
  omega

theorem Drawn.none (s : State) : Drawn (fun _ => False) s s where
  flipped := by intro i h; exact h.elim
  kept := by intro i _; rfl
  regs := by intro k _; rfl
  collide := by rintro ⟨i, h, _⟩; exact h.elim
  clean := by intro _; rfl
  frame := rfl

theorem Drawn.congr {hit hit' : Nat → Prop} {s t : State} (h : Drawn hit s t)
    (e : ∀ i, hit i ↔ hit' i) : Drawn hit' s t := by
  have : hit = hit' := funext fun i => propext (e i)
  subst this
  exact h

theorem Drawn.then {hit hit' : Nat → Prop} {s t u : State} (h : Drawn hit s t)
    (h' : Drawn hit' t u) (dis : ∀ i, hit' i → ¬ hit i) :
    Drawn (fun i => hit i ∨ hit' i) s u where
  flipped := by
    intro i hi
    by_cases h2 : hit' i
    · rw [h'.flipped i h2, h.kept i (dis i h2)]
    · have h1 : hit i := hi.resolve_right h2
      rw [h'.kept i h2, h.flipped i h1]
  kept := by
    intro i hi
    have h1 : ¬ hit i := fun a => hi (Or.inl a)
    have h2 : ¬ hit' i := fun a => hi (Or.inr a)
    rw [h'.kept i h2, h.kept i h1]
  regs := by
    intro k hk
    rw [h'.regs k hk, h.regs k hk]
  collide := by
    rintro ⟨i, hi, hg⟩
    by_cases hB : ∃ i, hit' i ∧ t.gfx i = 1
    · exact h'.collide hB
    · rw [h'.clean hB]
      apply h.collide
      rcases hi with h1 | h2
      · exact ⟨i, h1, hg⟩
      · exact absurd ⟨i, h2, by rw [h.kept i (dis i h2)]; exact hg⟩ hB
  clean := by
    intro hn
    have hB : ¬ ∃ i, hit' i ∧ t.gfx i = 1 := by
      rintro ⟨i, h2, hg⟩
      exact hn ⟨i, Or.inr h2, by rw [← h.kept i (dis i h2)]; exact hg⟩
    have hA : ¬ ∃ i, hit i ∧ s.gfx i = 1 := by
      rintro ⟨i, h1, hg⟩
      exact hn ⟨i, Or.inl h1, hg⟩
    rw [h'.clean hB, h.clean hA]
  frame := by
    have e1 := h.frame
    have e2 := h'.frame
    rw [e2]
    rw [e1]

/-- One iteration of the inner draw loop flips exactly the cell of a set bit. -/
theorem drawPixel_drawn (X Y p r c : Nat) (hc : c < 8) (s : State) :
    Drawn (fun i => p.testBit (7 - c) = true ∧ gfxIndex X Y c r = i) s
      (drawPixel X Y p r c s) := by
  unfold drawPixel
  by_cases hb : p.testBit (7 - c) = true
  · rw [if_pos ((pixel_test p c hc).mpr hb)]
    by_cases hg : s.gfx (gfxIndex X Y c r) = 1
    · simp only [hg, if_true]
      refine ⟨?_, ?_, ?_, ?_, ?_, rfl⟩
      · rintro i ⟨_, rfl⟩; simp [hg]
      · intro i hi
        have : i ≠ gfxIndex X Y c r := fun e => hi ⟨hb, e.symm⟩
        simp [this]
      · intro k hk; simp [hk]
      · intro _; simp
      · intro hn; exact absurd ⟨_, ⟨hb, rfl⟩, hg⟩ hn
    · simp only [hg, if_false]
      refine ⟨?_, ?_, ?_, ?_, ?_, rfl⟩
      · rintro i ⟨_, rfl⟩; simp
      · intro i hi
        have : i ≠ gfxIndex X Y c r := fun e => hi ⟨hb, e.symm⟩
        simp [this]
      · intro k _; rfl
      · rintro ⟨i, ⟨_, rfl⟩, h1⟩; exact absurd h1 hg
      · intro _; rfl
  · rw [if_neg (fun h => hb ((pixel_test p c hc).mp h))]
    exact (Drawn.none s).congr (fun i => ⟨fun h => h.elim, fun h => hb h.1⟩)

/-- The inner draw loop over the first `j` columns of a row. -/
theorem drawPixels_drawn (X Y p r j : Nat) (hj : j ≤ 8) (s : State) :
    Drawn (hitsRow X Y p r j) s (forUpTo j (drawPixel X Y p r) s) := by
  induction j with
  | zero =>
    exact (Drawn.none s).congr (fun i => ⟨fun h => h.elim, fun ⟨c, hc, _⟩ => by omega⟩)
  | succ j ih =>
    have h1 := ih (by omega)
    have h2 := drawPixel_drawn X Y p r j (by omega) (forUpTo j (drawPixel X Y p r) s)
    refine (h1.then h2 ?_).congr ?_
    · rintro i ⟨_, hi⟩ ⟨c, hc, _, hi'⟩
      have := gfxIndex_inj_col X Y c j r (by omega) (by omega) (hi'.trans hi.symm)
      omega
    · intro i
      constructor
      · rintro (⟨c, hc, hb, hi⟩ | ⟨hb, hi⟩)
        · exact ⟨c, by omega, hb, hi⟩
        · exact ⟨j, by omega, hb, hi⟩
      · rintro ⟨c, hc, hb, hi⟩
        by_cases e : c = j
        · subst e; exact Or.inr ⟨hb, hi⟩
        · exact Or.inl ⟨c, by omega, hb, hi⟩

/-- The outer draw loop over the first `k` rows: it never leaves the memory
array when `I + k ≤ 4096`, and flips exactly the cells under set sprite bits. -/
theorem drawRows_drawn (X Y k : Nat) (hk : k ≤ 32) (s : State) (hI : s.I + k ≤ 4096) :
    ∃ t, forUpToM k (drawRow X Y) s = some t ∧ Drawn (hits s.memory s.I X Y k) s t := by
  induction k with
  | zero =>
    refine ⟨s, rfl, (Drawn.none s).congr (fun i => ⟨fun h => h.elim, ?_⟩)⟩
    rintro ⟨r, hr, _⟩
    omega
  | succ k ih =>
    obtain ⟨t, ht, hd⟩ := ih (by omega) (by omega)
    have hI' : t.I = s.I := by rw [hd.frame]
    have hm : t.memory = s.memory := by rw [hd.frame]
    have hrow : drawRow X Y k t
        = some (forUpTo 8 (drawPixel X Y (s.memory (s.I + k)) k) t) := by
      unfold drawRow
      rw [hI', hm, if_pos (by omega)]
    refine ⟨forUpTo 8 (drawPixel X Y (s.memory (s.I + k)) k) t, ?_, ?_⟩
    · simp only [forUpToM, ht, Option.some_bind, hrow]
    · have h2 := drawPixels_drawn X Y (s.memory (s.I + k)) k 8 (le_refl 8) t
      refine (hd.then h2 ?_).congr ?_
      · rintro i ⟨c, hc, _, hi⟩ ⟨r, hr, c', hc', _, hi'⟩
        have := gfxIndex_inj X Y c c' k r (by omega) (by omega) (by omega) (by omega)
          (hi.trans hi'.symm)
        omega
      · intro i
        constructor
        · rintro (⟨r, hr, h⟩ | h)
          · exact ⟨r, by omega, h⟩
          · exact ⟨k, by omega, h⟩
        · rintro ⟨r, hr, h⟩
          by_cases e : r = k
          · subst e; exact Or.inr h
          · exact Or.inl ⟨r, by omega, h⟩

/-! ## Frame lemmas for `update_timers` -/

/-- Closed form of `update_timers` (subtraction on `Nat` stops at 0). -/
theorem update_timers_eq (s : State) :
    update_timers s = { s with delay_timer := s.delay_timer - 1
                               sound_timer := s.sound_timer - 1
                               beeps := s.beeps + (if s.sound_timer = 1 then 1 else 0) } := by
  obtain ⟨m, v, i, pc, d, sn, st, sp, df, g, op, k, b⟩ := s
  simp only [update_timers]
  by_cases hd : d > 0 <;> by_cases hs : sn > 0 <;> by_cases h1 : sn = 1 <;>
    simp [hd, hs, h1] <;> omega

@[simp] theorem update_timers_memory (s : State) : (update_timers s).memory = s.memory := by
  rw [update_timers_eq]

@[simp] theorem update_timers_V (s : State) : (update_timers s).V = s.V := by
  rw [update_timers_eq]

@[simp] theorem update_timers_I (s : State) : (update_timers s).I = s.I := by
  rw [update_timers_eq]

@[simp] theorem update_timers_PC (s : State) : (update_timers s).PC = s.PC := by
  rw [update_timers_eq]

@[simp] theorem update_timers_stack (s : State) : (update_timers s).stack = s.stack := by
  rw [update_timers_eq]

@[simp] theorem update_timers_SP (s : State) : (update_timers s).SP = s.SP := by
  rw [update_timers_eq]

@[simp] theorem update_timers_draw_flag (s : State) :
    (update_timers s).draw_flag = s.draw_flag := by
  rw [update_timers_eq]

@[simp] theorem update_timers_gfx (s : State) : (update_timers s).gfx = s.gfx := by
  rw [update_timers_eq]

@[simp] theorem update_timers_key (s : State) : (update_timers s).key = s.key := by
  rw [update_timers_eq]

@[simp] theorem update_timers_opcode (s : State) : (update_timers s).opcode = s.opcode := by
  rw [update_timers_eq]

theorem update_timers_delay (s : State) :
    (update_timers s).delay_timer = s.delay_timer - 1 := by
  rw [update_timers_eq]

theorem update_timers_sound (s : State) :
    (update_timers s).sound_timer = s.sound_timer - 1 := by
  rw [update_timers_eq]

theorem update_timers_beeps (s : State) :
    (update_timers s).beeps = s.beeps + (if s.sound_timer = 1 then 1 else 0) := by
  rw [update_timers_eq]

/-! ## Dispatch -/

theorem emulate_cycle_eq (rnd : Nat) (s : State) (hpc : s.PC + 1 < 4096) :
    emulate_cycle rnd s =
      match execute rnd { s with opcode := fetch s } with
      | none => none
      | some (.done t) => some (update_timers t)
      | some (.waiting t) => some t := by
  simp [emulate_cycle, hpc]

theorem execute_0 (rnd : Nat) (s : State) (h : s.opcode &&& 0xF000 = 0x0000) :
    execute rnd s = exec0 s := by
  simp [execute, h]

theorem execute_2 (rnd : Nat) (s : State) (h : s.opcode &&& 0xF000 = 0x2000) (hsp : s.SP < 16) :
    execute rnd s = some (.done { s with stack := write s.stack s.SP s.PC
                                         SP := u8 (s.SP + 1)
                                         PC := u16 (s.opcode &&& 0x0FFF) }) := by
  simp [execute, h, hsp]

theorem execute_8 (rnd : Nat) (s : State) (h : s.opcode &&& 0xF000 = 0x8000) :
    execute rnd s = some (.done (advance 2 (exec8 s))) := by
  simp [execute, h]

theorem execute_D (rnd : Nat) (s : State) (h : s.opcode &&& 0xF000 = 0xD000) :
    execute rnd s = execD s := by
  simp [execute, h]

theorem execute_E (rnd : Nat) (s : State) (h : s.opcode &&& 0xF000 = 0xE000) :
    execute rnd s = some (execE s) := by
  simp [execute, h]

theorem execute_F (rnd : Nat) (s : State) (h : s.opcode &&& 0xF000 = 0xF000) :
    execute rnd s = execF s := by
  simp [execute, h]

/-! ## The draw instruction -/

/-- One cycle on `DXYN`: the cycle completes, and the state before the timer
update is the state after the draw loops with the redraw flag set and `PC += 2`. -/
theorem emulate_cycle_draw (rnd : Nat) (s : State) (X Y N : Nat)
    (hX : X < 16) (hY : Y < 16) (hN : N < 16) (hpc : s.PC + 1 < 4096)
    (hop : fetch s = 0xD000 + 0x100 * X + 0x10 * Y + N) (hI : s.I + N ≤ 4096) :
    ∃ u, emulate_cycle rnd s = some (update_timers (advance 2 { u with draw_flag := true })) ∧
      Drawn (hits s.memory s.I (s.V X) (s.V Y) N)
        { s with opcode := fetch s, V := write s.V 0xF 0 } u := by
  have hc : fetch s &&& 0xF000 = 0xD000 := by rw [and_F000, hop]; omega
  have hx : opX (fetch s) = X := by rw [opX_eq, hop]; omega
  have hy : opY (fetch s) = Y := by rw [opY_eq, hop]; omega
  have hn : u8 (fetch s &&& 0x000F) = N := by rw [and_000F, hop]; unfold u8; omega
  obtain ⟨u, hu, hd⟩ := drawRows_drawn (s.V X) (s.V Y) N (by omega)
    { s with opcode := fetch s, V := write s.V 0xF 0 } hI
  refine ⟨u, ?_, hd⟩
  rw [emulate_cycle_eq rnd s hpc, execute_D rnd _ hc]
  simp only [execD, hx, hy, hn, hu, Option.map_some']

theorem hits_iff_covers (s : State) (VX VY N x y : Nat) (hx : x < 64) (_hy : y < 32) :
    hits s.memory s.I VX VY N (x + 64 * y) ↔ spriteCovers s VX VY N x y := by
  unfold hits hitsRow spriteCovers gfxIndex
  constructor
  · rintro ⟨r, hr, c, hc, hb, hi⟩
    exact ⟨r, hr, c, hc, by omega, by omega, hb⟩
  · rintro ⟨r, hr, c, hc, h1, h2, hb⟩
    exact ⟨r, hr, c, hc, hb, by omega⟩

theorem hits_collides (s : State) (VX VY N : Nat) :
    (∃ i, hits s.memory s.I VX VY N i ∧ s.gfx i = 1) ↔ collides s VX VY N := by
  constructor
  · rintro ⟨i, ⟨r, hr, c, hc, hb, hi⟩, hg⟩
    have hx : (VX + c) % 64 < 64 := Nat.mod_lt _ (by norm_num)
    have hy : (VY + r) % 32 < 32 := Nat.mod_lt _ (by norm_num)
    have e : (VX + c) % 64 + 64 * ((VY + r) % 32) = i := by
      unfold gfxIndex at hi; omega
    refine ⟨_, hx, _, hy, ⟨r, hr, c, hc, rfl, rfl, hb⟩, ?_⟩
    rw [e]; exact hg
  · rintro ⟨x, hx, y, hy, hcov, hg⟩
    exact ⟨x + 64 * y, (hits_iff_covers s VX VY N x y hx hy).mpr hcov, hg⟩

theorem u8_xor_one (g : Nat) (h : g < 256) : u8 (g ^^^ 1) = g ^^^ 1 := by
  unfold u8
  exact Nat.mod_eq_of_lt (Nat.xor_lt_two_pow (n := 8) h (by norm_num))

theorem xor_one_xor_one (g : Nat) : (g ^^^ 1) ^^^ 1 = g := by
  rw [Nat.xor_assoc, Nat.xor_self, Nat.xor_zero]

/-! ## C2: the draw instruction -/

/-- C2. For every state with `I + N ≤ 4096` whose opcode at `PC` is `DXYN`, one
`emulate_cycle` completes and leaves every cell `(x, y)`, `x < 64`, `y < 32`,
equal to the old cell XOR 1 when a set sprite bit lands on it (row `r < N`,
column `c < 8`, `(VX + c) mod 64 = x`, `(VY + r) mod 32 = y`, bit `7 - c` of
`memory[I + r]`), and unchanged otherwise; `VF` is 1 when a flipped cell held 1
before the draw and 0 otherwise; `I` and memory are unchanged, the redraw flag
is set and `PC` has advanced by 2. -/
theorem emulate_cycle_draw_spec (rnd : Nat) (s : State) (X Y N : Nat)
    (hX : X < 16) (hY : Y < 16) (hN : N < 16) (hwf : WF s) (hpc : s.PC + 1 < 4096)
    (hop : fetch s = 0xD000 + 0x100 * X + 0x10 * Y + N) (hI : s.I + N ≤ 4096) :
    ∃ t, emulate_cycle rnd s = some t ∧
      (∀ x y, x < 64 → y < 32 →
        t.gfx (x + 64 * y) =
          if spriteCovers s (s.V X) (s.V Y) N x y then s.gfx (x + 64 * y) ^^^ 1
          else s.gfx (x + 64 * y)) ∧
      t.V 0xF = (if collides s (s.V X) (s.V Y) N then 1 else 0) ∧
      t.I = s.I ∧ t.memory = s.memory ∧ t.draw_flag = true ∧ t.PC = s.PC + 2 := by
  obtain ⟨u, hu, hd⟩ := emulate_cycle_draw rnd s X Y N hX hY hN hpc hop hI
  refine ⟨_, hu, ?_, ?_, ?_, ?_, ?_, ?_⟩
  · intro x y hx hy
    simp only [update_timers_gfx, advance]
    by_cases hcov : spriteCovers s (s.V X) (s.V Y) N x y
    · rw [if_pos hcov, hd.flipped _ ((hits_iff_covers s _ _ N x y hx hy).mpr hcov)]
      exact u8_xor_one _ (hwf.gfx_lt _)
    · rw [if_neg hcov, hd.kept _ (fun h => hcov ((hits_iff_covers s _ _ N x y hx hy).mp h))]
  · simp only [update_timers_V, advance]
    by_cases hcol : collides s (s.V X) (s.V Y) N
    · rw [if_pos hcol]
      exact hd.collide ((hits_collides s _ _ N).mpr hcol)
    · rw [if_neg hcol, hd.clean (fun h => hcol ((hits_collides s _ _ N).mp h))]
      simp
  · simp only [update_timers_I, advance]
    rw [hd.frame]
  · simp only [update_timers_memory, advance]
    rw [hd.frame]
  · simp only [update_timers_draw_flag, advance]
  · simp only [update_timers_PC, advance]
    rw [hd.frame]
    simp only [u16]
    omega

theorem drawDemo_wf : WF drawDemo := by
  constructor <;> intros <;> simp only [drawDemo, poke, blank, write] <;>
    (repeat' split) <;> omega

/-- C2 at a concrete state: a one-row sprite `0xFF` drawn at `VX = 63`, `VY = 0`. -/
theorem emulate_cycle_draw_spec_witness :
    ∃ t, emulate_cycle 0 drawDemo = some t ∧
      (∀ x y, x < 64 → y < 32 →
        t.gfx (x + 64 * y) =
          if spriteCovers drawDemo (drawDemo.V 0) (drawDemo.V 1) 1 x y
            then drawDemo.gfx (x + 64 * y) ^^^ 1
          else drawDemo.gfx (x + 64 * y)) ∧
      t.V 0xF = (if collides drawDemo (drawDemo.V 0) (drawDemo.V 1) 1 then 1 else 0) ∧
      t.I = drawDemo.I ∧ t.memory = drawDemo.memory ∧ t.draw_flag = true ∧
      t.PC = drawDemo.PC + 2 :=
  emulate_cycle_draw_spec 0 drawDemo 0 1 1 (by decide) (by decide) (by decide) drawDemo_wf
    (by decide) (by decide) (by decide)

/-- The wrap-around example of C2 evaluated: the sprite `0xFF` at `VX = 63`
sets columns 63, 0, 1, ..., 6 of row 0 and leaves columns 7 and 62 clear. -/
theorem drawDemo_wraps :
    (emulate_cycle 0 drawDemo).map
        (fun t => ((List.range 8).map t.gfx, t.gfx 62, t.gfx 63, t.V 0xF, t.PC))
      = some ([1, 1, 1, 1, 1, 1, 1, 0], 0, 1, 0, 0x202) := by
  decide

/-! ## C3: drawing twice -/

/-- C3. For every display whose cells are 0 or 1, every sprite (`I + N ≤ 4096`)
and every `X`, `Y` other than `0xF`, executing the same `DXYN` twice in a row
(the opcode stands at `PC` and at `PC + 2`) restores the display buffer to its
state before the first draw. From an all-zero display the first draw leaves
`VF = 0`, and the second leaves `VF = 1` whenever the sprite has a set bit. -/
theorem draw_twice_restores (rnd rnd' : Nat) (s : State) (X Y N : Nat)
    (hX : X < 15) (hY : Y < 15) (hN : N < 16) (hpc : s.PC + 3 < 4096)
    (hop : fetch s = 0xD000 + 0x100 * X + 0x10 * Y + N)
    (hop' : fetch { s with PC := s.PC + 2 } = 0xD000 + 0x100 * X + 0x10 * Y + N)
    (hI : s.I + N ≤ 4096) (hcells : ∀ i, i < 64 * 32 → s.gfx i = 0 ∨ s.gfx i = 1) :
    ∃ t t', emulate_cycle rnd s = some t ∧ emulate_cycle rnd' t = some t' ∧
      t'.gfx = s.gfx ∧
      ((∀ i, i < 64 * 32 → s.gfx i = 0) →
        t.V 0xF = 0 ∧ (spriteNonEmpty s N → t'.V 0xF = 1)) := by
  obtain ⟨u, hu, hd⟩ := emulate_cycle_draw rnd s X Y N (by omega) (by omega) hN (by omega) hop hI
  have hlt : ∀ i, hits s.memory s.I (s.V X) (s.V Y) N i → i < 64 * 32 := by
    rintro i ⟨r, _, c, _, _, hi⟩
    rw [← hi]; exact gfxIndex_lt _ _ _ _
  -- the state after the first cycle
  have hmem : (update_timers (advance 2 { u with draw_flag := true })).memory = s.memory := by
    simp only [update_timers_memory, advance]; rw [hd.frame]
  have hI1 : (update_timers (advance 2 { u with draw_flag := true })).I = s.I := by
    simp only [update_timers_I, advance]; rw [hd.frame]
  have hPC1 : (update_timers (advance 2 { u with draw_flag := true })).PC = s.PC + 2 := by
    simp only [update_timers_PC, advance, u16]; rw [hd.frame]
    show (s.PC + 2) % 65536 = s.PC + 2
    omega
  have hVX : (update_timers (advance 2 { u with draw_flag := true })).V X = s.V X := by
    simp only [update_timers_V, advance]
    rw [hd.regs X (by omega)]
    exact write_other _ _ _ _ (by omega)
  have hVY : (update_timers (advance 2 { u with draw_flag := true })).V Y = s.V Y := by
    simp only [update_timers_V, advance]
    rw [hd.regs Y (by omega)]
    exact write_other _ _ _ _ (by omega)
  have hgfx1 : (update_timers (advance 2 { u with draw_flag := true })).gfx = u.gfx := by
    simp only [update_timers_gfx, advance]
  have hfetch : fetch (update_timers (advance 2 { u with draw_flag := true }))
      = 0xD000 + 0x100 * X + 0x10 * Y + N := by
    rw [← hop']
    unfold fetch
    rw [hmem, hPC1]
  obtain ⟨u', hu', hd'⟩ := emulate_cycle_draw rnd' _ X Y N (by omega) (by omega) hN
    (by rw [hPC1]; omega) hfetch (by rw [hI1]; exact hI)
  rw [hmem, hI1, hVX, hVY] at hd'
  refine ⟨_, _, hu, hu', ?_, ?_⟩
  · simp only [update_timers_gfx, advance]
    funext i
    by_cases hi : hits s.memory s.I (s.V X) (s.V Y) N i
    · rw [hd'.flipped i hi]
      show u8 ((update_timers (advance 2 { u with draw_flag := true })).gfx i ^^^ 1) = s.gfx i
      rw [hgfx1, hd.flipped i hi]
      show u8 (u8 (s.gfx i ^^^ 1) ^^^ 1) = s.gfx i
      rcases hcells i (hlt i hi) with h | h <;> rw [h] <;> rfl
    · rw [hd'.kept i hi]
      show (update_timers (advance 2 { u with draw_flag := true })).gfx i = s.gfx i
      rw [hgfx1, hd.kept i hi]
  · intro hzero
    constructor
    · simp only [update_timers_V, advance]
      rw [hd.clean]
      · simp
      · rintro ⟨i, hi, hg⟩
        have := hzero i (hlt i hi)
        change s.gfx i = 1 at hg
        omega
    · rintro ⟨r, hr, c, hc, hb⟩
      simp only [update_timers_V, advance]
      apply hd'.collide
      have hi : hits s.memory s.I (s.V X) (s.V Y) N (gfxIndex (s.V X) (s.V Y) c r) :=
        ⟨r, hr, c, hc, hb, rfl⟩
      refine ⟨_, hi, ?_⟩
      show (update_timers (advance 2 { u with draw_flag := true })).gfx _ = 1
      rw [hgfx1, hd.flipped _ hi]
      show u8 (s.gfx _ ^^^ 1) = 1
      rw [hzero _ (hlt _ hi)]
      rfl

/-- C3 at a concrete state: the one-pixel sprite `0x80` drawn twice at `(5, 3)`;
evaluated, the pixel is 1 with `VF = 0` after the first draw and 0 with
`VF = 1` after the second. -/
theorem draw_twice_restores_witness :
    (∃ t t', emulate_cycle 0 drawTwiceDemo = some t ∧ emulate_cycle 0 t = some t' ∧
      t'.gfx = drawTwiceDemo.gfx ∧
      ((∀ i, i < 64 * 32 → drawTwiceDemo.gfx i = 0) →
        t.V 0xF = 0 ∧ (spriteNonEmpty drawTwiceDemo 1 → t'.V 0xF = 1))) ∧
    (emulate_cycle 0 drawTwiceDemo).map (fun t => (t.gfx (5 + 64 * 3), t.V 0xF)) = some (1, 0) ∧
    ((emulate_cycle 0 drawTwiceDemo).bind (emulate_cycle 0)).map
      (fun t => (t.gfx (5 + 64 * 3), t.V 0xF)) = some (0, 1) :=
  ⟨draw_twice_restores 0 0 drawTwiceDemo 0 1 1 (by decide) (by decide) (by decide) (by decide)
      (by decide) (by decide) (by decide) (fun _ _ => Or.inl rfl),
    by decide, by decide⟩

/-! ## C4, C5: add and subtract with flag -/

theorem emulate_cycle_8 (rnd : Nat) (s : State) (hpc : s.PC + 1 < 4096)
    (hc : fetch s &&& 0xF000 = 0x8000) :
    emulate_cycle rnd s
      = some (update_timers (advance 2 (exec8 { s with opcode := fetch s }))) := by
  rw [emulate_cycle_eq rnd s hpc, execute_8 rnd _ hc]

/-- `8XY4` with a destination other than `VF`: the flag is the carry of
`VX + VY`, the destination holds the sum modulo 256, the other registers are
unchanged and `PC` has advanced by 2. -/
theorem add_with_carry (rnd : Nat) (s : State) (X Y : Nat) (hX : X < 15) (hY : Y < 16)
    (hwf : WF s) (hpc : s.PC + 1 < 4096) (hop : fetch s = 0x8004 + 0x100 * X + 0x10 * Y) :
    ∃ t, emulate_cycle rnd s = some t ∧
      t.V 0xF = (if s.V X + s.V Y > 255 then 1 else 0) ∧
      t.V X = (s.V X + s.V Y) % 256 ∧
      (∀ k, k ≠ X → k ≠ 0xF → t.V k = s.V k) ∧ t.PC = s.PC + 2 := by
  have hc : fetch s &&& 0xF000 = 0x8000 := by rw [and_F000, hop]; omega
  have hx : opX (fetch s) = X := by rw [opX_eq, hop]; omega
  have hy : opY (fetch s) = Y := by rw [opY_eq, hop]; omega
  have hn : fetch s &&& 0x000F = 4 := by rw [and_000F, hop]; omega
  have hVX := hwf.V_lt X
  have hVY := hwf.V_lt Y
  have hsum : u16 (s.V X + s.V Y) = s.V X + s.V Y := by unfold u16; omega
  refine ⟨_, emulate_cycle_8 rnd s hpc hc, ?_, ?_, ?_, ?_⟩
  · simp only [update_timers_V, advance, exec8, hx, hy, hn, hsum]
    simp [write_apply, show (15 : Nat) ≠ X by omega]
  · simp only [update_timers_V, advance, exec8, hx, hy, hn, hsum]
    simp [write_apply, and_00FF, u8]
  · intro k hk hk'
    simp only [update_timers_V, advance, exec8, hx, hy, hn, hsum]
    simp [write_apply, hk, hk']
  · simp only [update_timers_PC, advance, exec8, hx, hy, hn, hsum]
    simp [u16]
    omega

/-- `8XY5` with `X` and `Y` other than `0xF`: the flag is 1 exactly when
`VX ≥ VY`, and the destination holds `VX - VY` modulo 256. -/
theorem sub_with_borrow (rnd : Nat) (s : State) (X Y : Nat) (hX : X < 15) (hY : Y < 15)
    (hwf : WF s) (hpc : s.PC + 1 < 4096) (hop : fetch s = 0x8005 + 0x100 * X + 0x10 * Y) :
    ∃ t, emulate_cycle rnd s = some t ∧
      t.V 0xF = (if s.V X ≥ s.V Y then 1 else 0) ∧
      (t.V X : Int) = ((s.V X : Int) - (s.V Y : Int)) % 256 ∧
      (∀ k, k ≠ X → k ≠ 0xF → t.V k = s.V k) ∧ t.PC = s.PC + 2 := by
  have hc : fetch s &&& 0xF000 = 0x8000 := by rw [and_F000, hop]; omega
  have hx : opX (fetch s) = X := by rw [opX_eq, hop]; omega
  have hy : opY (fetch s) = Y := by rw [opY_eq, hop]; omega
  have hn : fetch s &&& 0x000F = 5 := by rw [and_000F, hop]; omega
  refine ⟨_, emulate_cycle_8 rnd s hpc hc, ?_, ?_, ?_, ?_⟩
  · simp only [update_timers_V, advance, exec8, hx, hy, hn]
    simp [write_apply, show (15 : Nat) ≠ X by omega]
  · have e : (update_timers (advance 2 (exec8 { s with opcode := fetch s }))).V X
        = (s.V X + 256 - s.V Y) % 256 := by
      simp only [update_timers_V, advance, exec8, hx, hy, hn]
      simp [write_apply, u8, show X ≠ 15 by omega, show Y ≠ 15 by omega]
    have hVX := hwf.V_lt X
    have hVY := hwf.V_lt Y
    rw [e]
    omega
  · intro k hk hk'
    simp only [update_timers_V, advance, exec8, hx, hy, hn]
    simp [write_apply, hk, hk']
  · simp only [update_timers_PC, advance, exec8, hx, hy, hn]
    simp [u16]
    omega

/-- C4, evaluated where the claim fails. The opcode `8F04` with `VF = 0xFF`,
`V0 = 0x01`: the sum is 0x100, so the claim gives `VF = 1`; the code stores the
carry in `VF` and then the low byte of the sum in `V[X] = VF`, leaving `VF = 0`. -/
theorem add_flag_destination :
    (emulate_cycle 0 addFlagDemo).map (fun t => (t.V 0xF, t.V 0, t.PC))
      = some (0x00, 0x01, 0x202) := by
  decide

/-- The two examples of the specification for `8XY4`, with `X = 0`, `Y = 1`:
`0xFF + 0x01` gives `VX = 0x00`, `VF = 1`. -/
theorem add_examples :
    (emulate_cycle 0 addDemo).map (fun t => (t.V 0, t.V 0xF)) = some (0x00, 1) ∧
    (emulate_cycle 0 { addDemo with V := write (write (fun _ => 0) 0 0x01) 1 0x01 }).map
      (fun t => (t.V 0, t.V 0xF)) = some (0x02, 0) := by
  decide

/-- C5, evaluated where the claim fails. The opcode `80F5` with `V0 = 0x05`,
`VF = 0x03`: the claim gives `V0 = 0x05 - 0x03 = 0x02`; the code first stores
the flag 1 in `VF` and then subtracts the new `VF`, leaving `V0 = 0x04`. -/
theorem sub_flag_operand :
    (emulate_cycle 0 subFlagDemo).map (fun t => (t.V 0, t.V 0xF, t.PC))
      = some (0x04, 1, 0x202) := by
  decide

/-- The two examples of the specification for `8XY5`, with `X = 0`, `Y = 1`. -/
theorem sub_examples :
    (emulate_cycle 0 subDemo).map (fun t => (t.V 0, t.V 0xF)) = some (0xFE, 0) ∧
    (emulate_cycle 0 { subDemo with V := write (write (fun _ => 0) 0 0x05) 1 0x03 }).map
      (fun t => (t.V 0, t.V 0xF)) = some (0x02, 1) := by
  decide

/-! ## C6: call and return -/

/-- C6. For every state with `SP < 16` whose opcode at `PC = p` is the call
`2NNN`, `NNN ≤ 4094`, and whose bytes at `NNN` encode the return `00EE`: the
call leaves `stack[old SP] = p`, `SP = old SP + 1` and `PC = NNN`; the return
that follows leaves `PC = p + 2` and `SP` at its value before the call. -/
theorem call_return_roundtrip (rnd rnd' : Nat) (s : State) (NNN : Nat)
    (hsp : s.SP < 16) (hpc : s.PC + 1 < 4096) (hN : NNN ≤ 4094)
    (hop : fetch s = 0x2000 + NNN)
    (hret0 : s.memory NNN = 0x00) (hret1 : s.memory (NNN + 1) = 0xEE) :
    ∃ t t', emulate_cycle rnd s = some t ∧
      t.stack s.SP = s.PC ∧ t.SP = s.SP + 1 ∧ t.PC = NNN ∧
      emulate_cycle rnd' t = some t' ∧ t'.PC = s.PC + 2 ∧ t'.SP = s.SP := by
  have hc : fetch s &&& 0xF000 = 0x2000 := by rw [and_F000, hop]; omega
  have hnnn : u16 (fetch s &&& 0x0FFF) = NNN := by rw [and_0FFF, hop]; unfold u16; omega
  have hsp1 : u8 (s.SP + 1) = s.SP + 1 := by unfold u8; omega
  have h1 : emulate_cycle rnd s = some (update_timers
      { s with opcode := fetch s, stack := write s.stack s.SP s.PC, SP := s.SP + 1, PC := NNN }) := by
    rw [emulate_cycle_eq rnd s hpc, execute_2 rnd { s with opcode := fetch s } hc hsp]
    simp only [hnnn, hsp1]
  obtain ⟨t, ht⟩ : ∃ t, t = update_timers { s with
      opcode := fetch s, stack := write s.stack s.SP s.PC, SP := s.SP + 1, PC := NNN } :=
    ⟨_, rfl⟩
  rw [← ht] at h1
  have hmem : t.memory = s.memory := by rw [ht]; simp
  have hPC : t.PC = NNN := by rw [ht]; simp
  have hSP : t.SP = s.SP + 1 := by rw [ht]; simp
  have hstack : t.stack s.SP = s.PC := by rw [ht]; simp
  have hf : fetch t = 0x00EE := by
    unfold fetch
    rw [hmem, hPC, hret0, hret1]
    rfl
  have hsp2 : u8 (s.SP + 1 + 255) = s.SP := by unfold u8; omega
  have h2 : emulate_cycle rnd' t = some (update_timers (advance 2
      { t with opcode := fetch t, SP := s.SP, PC := s.PC })) := by
    rw [emulate_cycle_eq rnd' t (by rw [hPC]; omega),
      execute_0 rnd' { t with opcode := fetch t } (by simp only [hf]; rfl)]
    simp only [exec0, hf]
    rw [if_neg (by decide), if_pos (by decide)]
    simp only [hSP, hsp2, if_pos hsp, hstack]
  refine ⟨t, _, h1, hstack, hSP, hPC, h2, ?_, ?_⟩
  · simp [advance, u16]
    omega
  · simp [advance]

/-- C6 at a concrete state: `CALL 0x300` at `0x200` with `SP = 2`, then `RET`. -/
theorem call_return_roundtrip_witness :
    (∃ t t', emulate_cycle 0 callDemo = some t ∧
      t.stack callDemo.SP = callDemo.PC ∧ t.SP = callDemo.SP + 1 ∧ t.PC = 0x300 ∧
      emulate_cycle 0 t = some t' ∧ t'.PC = callDemo.PC + 2 ∧ t'.SP = callDemo.SP) ∧
    ((emulate_cycle 0 callDemo).bind (emulate_cycle 0)).map (fun t => (t.PC, t.SP))
      = some (0x202, 2) :=
  ⟨call_return_roundtrip 0 0 callDemo 0x300 (by decide) (by decide) (by decide) (by decide)
      (by decide) (by decide),
    by decide⟩

/-! ## C7, C8: the key wait -/

/-- C7, evaluated where the claim fails. `F30A` with no key pressed, delay
timer 5 and sound timer 3: the claim gives timers 4 and 2 after the cycle; the
code returns before `update_timers`, so `PC` and both timers are unchanged. -/
theorem key_wait_freezes_timers :
    (emulate_cycle 0 keyWaitDemo).map (fun t => (t.PC, t.delay_timer, t.sound_timer))
      = some (0x200, 5, 3) := by
  decide

theorem firstKey_some (key : Nat → Nat) (n i k : Nat) (h : firstKey key n i = some k) :
    i ≤ k ∧ k < i + n ∧ key k ≠ 0 ∧ ∀ j, i ≤ j → j < k → key j = 0 := by
  induction n generalizing i with
  | zero => simp [firstKey] at h
  | succ n ih =>
    unfold firstKey at h
    by_cases hk : key i ≠ 0
    · rw [if_pos hk] at h
      cases h
      exact ⟨le_refl _, by omega, hk, fun j h1 h2 => by omega⟩
    · rw [if_neg hk] at h
      obtain ⟨h1, h2, h3, h4⟩ := ih (i + 1) h
      refine ⟨by omega, by omega, h3, fun j hj1 hj2 => ?_⟩
      by_cases e : j = i
      · subst e; exact not_not.mp hk
      · exact h4 j (by omega) hj2

theorem firstKey_none (key : Nat → Nat) (n i : Nat) (h : firstKey key n i = none) :
    ∀ j, i ≤ j → j < i + n → key j = 0 := by
  induction n generalizing i with
  | zero => intro j h1 h2; omega
  | succ n ih =>
    unfold firstKey at h
    by_cases hk : key i ≠ 0
    · rw [if_pos hk] at h; cases h
    · rw [if_neg hk] at h
      intro j h1 h2
      by_cases e : j = i
      · subst e; exact not_not.mp hk
      · exact ih (i + 1) h j (by omega) (by omega)

/-- C8. For every state whose opcode at `PC` is `FX0A` and in which some key
flag is nonzero, one `emulate_cycle` stores into `VX` the smallest index
`k < 16` with `key[k]` nonzero, advances `PC` by 2, and leaves the key flags
and every register other than `VX` unchanged. -/
theorem key_wait_pressed (rnd : Nat) (s : State) (X : Nat) (hX : X < 16)
    (hpc : s.PC + 1 < 4096) (hop : fetch s = 0xF00A + 0x100 * X)
    (hkey : ∃ i, i < 16 ∧ s.key i ≠ 0) :
    ∃ t k, emulate_cycle rnd s = some t ∧
      k < 16 ∧ s.key k ≠ 0 ∧ (∀ j, j < k → s.key j = 0) ∧
      t.V X = k ∧ t.PC = s.PC + 2 ∧ t.key = s.key ∧ ∀ r, r ≠ X → t.V r = s.V r := by
  have hc : fetch s &&& 0xF000 = 0xF000 := by rw [and_F000, hop]; omega
  have hx : opX (fetch s) = X := by rw [opX_eq, hop]; omega
  have hn : fetch s &&& 0x00FF = 0x0A := by rw [and_00FF, hop]; omega
  cases hf : firstKey s.key 16 0 with
  | none =>
    obtain ⟨i, hi, hk⟩ := hkey
    exact absurd (firstKey_none s.key 16 0 hf i (by omega) (by omega)) hk
  | some k =>
    obtain ⟨_, h2, h3, h4⟩ := firstKey_some s.key 16 0 k hf
    have hk8 : u8 k = k := by unfold u8; omega
    refine ⟨update_timers (advance 2 { s with opcode := fetch s, V := write s.V X k }), k,
      ?_, by omega, h3, fun j hj => h4 j (by omega) hj, ?_, ?_, ?_, ?_⟩
    · rw [emulate_cycle_eq rnd s hpc, execute_F rnd _ hc]
      simp [execF, hn, hx, hf, hk8]
    · simp [advance]
    · simp [advance, u16]; omega
    · simp [advance]
    · intro r hr; simp [advance, hr]

/-- C8 at a concrete state: keys 7 and 9 pressed, `F30A` stores 7 in `V3`. -/
theorem key_wait_pressed_witness :
    (∃ t k, emulate_cycle 0 keyPressedDemo = some t ∧
      k < 16 ∧ keyPressedDemo.key k ≠ 0 ∧ (∀ j, j < k → keyPressedDemo.key j = 0) ∧
      t.V 3 = k ∧ t.PC = keyPressedDemo.PC + 2 ∧ t.key = keyPressedDemo.key ∧
      ∀ r, r ≠ 3 → t.V r = keyPressedDemo.V r) ∧
    (emulate_cycle 0 keyPressedDemo).map (fun t => (t.V 3, t.PC)) = some (7, 0x202) :=
  ⟨key_wait_pressed 0 keyPressedDemo 3 (by decide) (by decide) (by decide)
      ⟨9, by decide, by decide⟩,
    by decide⟩

/-! ## C9: the timer tick -/

theorem sameTimers_refl (s : State) : sameTimers s s := ⟨rfl, rfl, rfl⟩

theorem sameTimers_trans {s t u : State} (h1 : sameTimers s t) (h2 : sameTimers t u) :
    sameTimers s u :=
  ⟨h2.1.trans h1.1, h2.2.1.trans h1.2.1, h2.2.2.trans h1.2.2⟩

theorem forUpTo_sameTimers (n : Nat) (body : Nat → State → State)
    (hb : ∀ i u, sameTimers u (body i u)) (s : State) : sameTimers s (forUpTo n body s) := by
  induction n with
  | zero => exact sameTimers_refl s
  | succ n ih => exact sameTimers_trans ih (hb n _)

theorem forUpToM_sameTimers (n : Nat) (body : Nat → State → Option State)
    (hb : ∀ i u v, body i u = some v → sameTimers u v) (s t : State)
    (h : forUpToM n body s = some t) : sameTimers s t := by
  induction n generalizing t with
  | zero =>
    simp only [forUpToM, Option.some.injEq] at h
    subst h
    exact sameTimers_refl s
  | succ n ih =>
    simp only [forUpToM] at h
    cases hm : forUpToM n body s with
    | none => rw [hm] at h; simp at h
    | some u =>
      rw [hm] at h
      exact sameTimers_trans (ih u hm) (hb n u t h)

theorem drawPixel_sameTimers (X Y p r c : Nat) (s : State) :
    sameTimers s (drawPixel X Y p r c s) := by
  unfold drawPixel
  simp only []
  split_ifs <;> exact ⟨rfl, rfl, rfl⟩

theorem drawRow_sameTimers (X Y r : Nat) (s t : State) (h : drawRow X Y r s = some t) :
    sameTimers s t := by
  unfold drawRow at h
  split_ifs at h
  simp only [Option.some.injEq] at h
  subst h
  exact forUpTo_sameTimers 8 _ (drawPixel_sameTimers X Y _ r) s

theorem exec0_sameTimers (s : State) (st : Step) (h : exec0 s = some st) :
    sameTimers s st.state := by
  unfold exec0 at h
  rw [clear_gfx_eq] at h
  simp only [] at h
  split_ifs at h
  · simp only [Option.some.injEq] at h
    subst h
    exact ⟨rfl, rfl, rfl⟩
  · simp only [Option.some.injEq] at h
    subst h
    exact ⟨rfl, rfl, rfl⟩
  · simp only [Option.some.injEq] at h
    subst h
    exact ⟨rfl, rfl, rfl⟩

theorem exec8_sameTimers (s : State) : sameTimers s (exec8 s) := by
  unfold exec8 sameTimers
  simp only [apply_ite State.delay_timer, apply_ite State.sound_timer, apply_ite State.beeps,
    ite_self, and_self]

theorem execD_sameTimers (s : State) (st : Step) (h : execD s = some st) :
    sameTimers s st.state := by
  unfold execD at h
  simp only [Option.map_eq_some'] at h
  obtain ⟨u, hu, rfl⟩ := h
  have h1 := forUpToM_sameTimers _ _ (drawRow_sameTimers _ _) _ _ hu
  exact ⟨h1.1, h1.2.1, h1.2.2⟩

theorem execE_sameTimers (s : State) : sameTimers s (execE s).state := by
  unfold execE
  split_ifs <;> exact ⟨rfl, rfl, rfl⟩

theorem execF_sameTimers (s : State) (st : Step) (h : execF s = some st)
    (h15 : s.opcode &&& 0x00FF ≠ 0x15) (h18 : s.opcode &&& 0x00FF ≠ 0x18) :
    sameTimers s st.state := by
  unfold execF at h
  simp only [] at h
  split_ifs at h
  · simp only [Option.some.injEq] at h; subst h; exact ⟨rfl, rfl, rfl⟩
  · split at h <;> (simp only [Option.some.injEq] at h; subst h; exact ⟨rfl, rfl, rfl⟩)
  · simp only [Option.some.injEq] at h; subst h; exact ⟨rfl, rfl, rfl⟩
  · simp only [Option.some.injEq] at h; subst h; exact ⟨rfl, rfl, rfl⟩
  · simp only [Option.some.injEq] at h; subst h; exact ⟨rfl, rfl, rfl⟩
  · simp only [Option.map_eq_some'] at h
    obtain ⟨u, hu, rfl⟩ := h
    refine sameTimers_trans (forUpToM_sameTimers _ _ ?_ _ _ hu) ⟨rfl, rfl, rfl⟩
    intro i a b hab
    split_ifs at hab
    simp only [Option.some.injEq] at hab
    subst hab
    exact ⟨rfl, rfl, rfl⟩
  · simp only [Option.map_eq_some'] at h
    obtain ⟨u, hu, rfl⟩ := h
    refine sameTimers_trans (forUpToM_sameTimers _ _ ?_ _ _ hu) ⟨rfl, rfl, rfl⟩
    intro i a b hab
    split_ifs at hab
    simp only [Option.some.injEq] at hab
    subst hab
    exact ⟨rfl, rfl, rfl⟩
  · simp only [Option.some.injEq] at h; subst h; exact ⟨rfl, rfl, rfl⟩

/-- Shape of one decoded instruction. Either the opcode belongs to one of the
classes handled by `exec0`, `exec8`, `execD`, `execE`, `execF`, or it is a
call, or the instruction completes and changes at most `V`, `I` and `PC`. -/
theorem execute_shape (rnd : Nat) (s : State) :
    (s.opcode &&& 0xF000 = 0x0000 ∧ execute rnd s = exec0 s) ∨
    (s.opcode &&& 0xF000 = 0x2000 ∧ execute rnd s =
      if s.SP < 16 then
        some (.done { s with stack := write s.stack s.SP s.PC
                             SP := u8 (s.SP + 1)
                             PC := u16 (s.opcode &&& 0x0FFF) })
      else none) ∨
    (s.opcode &&& 0xF000 = 0x8000 ∧ execute rnd s = some (.done (advance 2 (exec8 s)))) ∨
    (s.opcode &&& 0xF000 = 0xD000 ∧ execute rnd s = execD s) ∨
    (s.opcode &&& 0xF000 = 0xE000 ∧ execute rnd s = some (execE s)) ∨
    (s.opcode &&& 0xF000 = 0xF000 ∧ execute rnd s = execF s) ∨
    (s.opcode &&& 0xF000 ≠ 0x0000 ∧ s.opcode &&& 0xF000 ≠ 0x2000 ∧
      s.opcode &&& 0xF000 ≠ 0x8000 ∧ s.opcode &&& 0xF000 ≠ 0xD000 ∧
      s.opcode &&& 0xF000 ≠ 0xE000 ∧ s.opcode &&& 0xF000 ≠ 0xF000 ∧
      ∃ t, execute rnd s = some (.done t) ∧ t = { s with V := t.V, I := t.I, PC := t.PC }) := by
  by_cases h0 : s.opcode &&& 0xF000 = 0x0000
  · exact Or.inl ⟨h0, execute_0 rnd s h0⟩
  by_cases h2 : s.opcode &&& 0xF000 = 0x2000
  · refine Or.inr (Or.inl ⟨h2, ?_⟩)
    simp [execute, h2]
  by_cases h8 : s.opcode &&& 0xF000 = 0x8000
  · exact Or.inr (Or.inr (Or.inl ⟨h8, execute_8 rnd s h8⟩))
  by_cases hD : s.opcode &&& 0xF000 = 0xD000
  · exact Or.inr (Or.inr (Or.inr (Or.inl ⟨hD, execute_D rnd s hD⟩)))
  by_cases hE : s.opcode &&& 0xF000 = 0xE000
  · exact Or.inr (Or.inr (Or.inr (Or.inr (Or.inl ⟨hE, execute_E rnd s hE⟩))))
  by_cases hF : s.opcode &&& 0xF000 = 0xF000
  · exact Or.inr (Or.inr (Or.inr (Or.inr (Or.inr (Or.inl ⟨hF, execute_F rnd s hF⟩)))))
  refine Or.inr (Or.inr (Or.inr (Or.inr (Or.inr (Or.inr ⟨h0, h2, h8, hD, hE, hF, ?_⟩)))))
  by_cases h1 : s.opcode &&& 0xF000 = 0x1000
  · exact ⟨{ s with PC := u16 (s.opcode &&& 0x0FFF) },
      by simp [execute, h1], rfl⟩
  by_cases h3 : s.opcode &&& 0xF000 = 0x3000
  · by_cases c : s.V (opX s.opcode) = s.opcode &&& 0x00FF
    · exact ⟨advance 4 s, by simp [execute, h3, c], rfl⟩
    · exact ⟨advance 2 s, by simp [execute, h3, c], rfl⟩
  by_cases h4 : s.opcode &&& 0xF000 = 0x4000
  · by_cases c : s.V (opX s.opcode) = s.opcode &&& 0x00FF
    · exact ⟨advance 2 s, by simp [execute, h4, c], rfl⟩
    · exact ⟨advance 4 s, by simp [execute, h4, c], rfl⟩
  by_cases h5 : s.opcode &&& 0xF000 = 0x5000
  · by_cases c : s.V (opX s.opcode) = s.V (opY s.opcode)
    · exact ⟨advance 4 s, by simp [execute, h5, c], rfl⟩
    · exact ⟨advance 2 s, by simp [execute, h5, c], rfl⟩
  by_cases h6 : s.opcode &&& 0xF000 = 0x6000
  · exact ⟨advance 2 { s with V := write s.V (opX s.opcode) (u8 (s.opcode &&& 0x00FF)) },
      by simp [execute, h6], rfl⟩
  by_cases h7 : s.opcode &&& 0xF000 = 0x7000
  · exact ⟨advance 2 { s with V := write s.V (opX s.opcode) (u8 (s.V (opX s.opcode) + (s.opcode &&& 0x00FF))) },
      by simp [execute, h7], rfl⟩
  by_cases h9 : s.opcode &&& 0xF000 = 0x9000
  · by_cases c : s.V (opX s.opcode) = s.V (opY s.opcode)
    · exact ⟨advance 2 s, by simp [execute, h9, c], rfl⟩
    · exact ⟨advance 4 s, by simp [execute, h9, c], rfl⟩
  by_cases hA : s.opcode &&& 0xF000 = 0xA000
  · exact ⟨advance 2 { s with I := u16 (s.opcode &&& 0x0FFF) },
      by simp [execute, hA], rfl⟩
  by_cases hB : s.opcode &&& 0xF000 = 0xB000
  · exact ⟨{ s with PC := u16 (s.V 0 + (s.opcode &&& 0x0FFF)) },
      by simp [execute, hB], rfl⟩
  by_cases hC : s.opcode &&& 0xF000 = 0xC000
  · exact ⟨advance 2 { s with V := write s.V (opX s.opcode) (u8 (rnd &&& (s.opcode &&& 0x00FF))) },
      by simp [execute, hC], rfl⟩
  exact ⟨s, by simp [execute, h0, h1, h2, h3, h4, h5, h6, h7, h8, h9, hA, hB, hC, hD, hE, hF], rfl⟩

theorem execute_sameTimers (rnd : Nat) (s : State) (st : Step) (h : execute rnd s = some st)
    (h15 : ¬ isFX s.opcode 0x15) (h18 : ¬ isFX s.opcode 0x18) : sameTimers s st.state := by
  rcases execute_shape rnd s with ⟨_, e⟩ | ⟨_, e⟩ | ⟨_, e⟩ | ⟨_, e⟩ | ⟨_, e⟩ | ⟨hF, e⟩ |
    ⟨_, _, _, _, _, _, t, e, ht⟩
  · rw [e] at h
    exact exec0_sameTimers s st h
  · rw [e] at h
    split_ifs at h
    simp only [Option.some.injEq] at h
    subst h
    exact ⟨rfl, rfl, rfl⟩
  · rw [e] at h
    simp only [Option.some.injEq] at h
    subst h
    exact exec8_sameTimers s
  · rw [e] at h
    exact execD_sameTimers s st h
  · rw [e] at h
    simp only [Option.some.injEq] at h
    subst h
    exact execE_sameTimers s
  · rw [e] at h
    exact execF_sameTimers s st h (fun c => h15 ⟨hF, c⟩) (fun c => h18 ⟨hF, c⟩)
  · rw [e] at h
    simp only [Option.some.injEq] at h
    subst h
    refine ⟨?_, ?_, ?_⟩
    · show t.delay_timer = s.delay_timer
      rw [ht]
    · show t.sound_timer = s.sound_timer
      rw [ht]
    · show t.beeps = s.beeps
      rw [ht]

theorem exec0_not_waiting (s u : State) : exec0 s ≠ some (.waiting u) := by
  unfold exec0
  rw [clear_gfx_eq]
  simp only []
  split_ifs <;> simp

theorem execD_not_waiting (s u : State) : execD s ≠ some (.waiting u) := by
  unfold execD
  simp [Option.map_eq_some']

theorem execE_not_waiting (s u : State) : execE s ≠ .waiting u := by
  unfold execE
  split_ifs <;> simp

theorem execF_waiting (s u : State) (h : execF s = some (.waiting u)) :
    s.opcode &&& 0x00FF = 0x0A ∧ ∀ i, i < 16 → s.key i = 0 := by
  by_cases hA : s.opcode &&& 0x00FF = 0x0A
  · refine ⟨hA, ?_⟩
    cases hf : firstKey s.key 16 0 with
    | none =>
      intro i hi
      exact firstKey_none s.key 16 0 hf i (by omega) (by omega)
    | some k => simp [execF, hA, hf] at h
  · exfalso
    by_cases h07 : s.opcode &&& 0x00FF = 0x07
    · simp [execF, h07] at h
    by_cases h15 : s.opcode &&& 0x00FF = 0x15
    · simp [execF, h15] at h
    by_cases h18 : s.opcode &&& 0x00FF = 0x18
    · simp [execF, h18] at h
    by_cases h1E : s.opcode &&& 0x00FF = 0x1E
    · simp [execF, h1E] at h
    by_cases h29 : s.opcode &&& 0x00FF = 0x29
    · simp [execF, h29] at h
    by_cases h33 : s.opcode &&& 0x00FF = 0x33
    · simp [execF, h33] at h
    by_cases h55 : s.opcode &&& 0x00FF = 0x55
    · simp [execF, h55] at h
    by_cases h65 : s.opcode &&& 0x00FF = 0x65
    · simp [execF, h65] at h
    simp [execF, hA, h07, h15, h18, h1E, h29, h33, h55, h65] at h

/-- The only early return of the cycle is the key wait with no key pressed. -/
theorem execute_waiting (rnd : Nat) (s u : State) (h : execute rnd s = some (.waiting u)) :
    isFX s.opcode 0x0A ∧ ∀ i, i < 16 → s.key i = 0 := by
  rcases execute_shape rnd s with ⟨_, e⟩ | ⟨_, e⟩ | ⟨_, e⟩ | ⟨_, e⟩ | ⟨_, e⟩ | ⟨hF, e⟩ |
    ⟨_, _, _, _, _, _, t, e, _⟩
  · rw [e] at h
    exact absurd h (exec0_not_waiting s u)
  · rw [e] at h
    split_ifs at h
    simp at h
  · rw [e] at h
    simp at h
  · rw [e] at h
    exact absurd h (execD_not_waiting s u)
  · rw [e] at h
    simp only [Option.some.injEq] at h
    exact absurd h (execE_not_waiting s u)
  · rw [e] at h
    exact ⟨⟨hF, (execF_waiting s u h).1⟩, (execF_waiting s u h).2⟩
  · rw [e] at h
    simp at h

/-- C9. For every `emulate_cycle` that completes an instruction other than a
waiting `FX0A`, `FX15` and `FX18`: each timer ends at `old - 1` when `old > 0`
and at 0 when `old = 0`, and one beep is printed exactly when the sound timer
was 1 before the cycle. -/
theorem timer_tick (rnd : Nat) (s t : State) (h : emulate_cycle rnd s = some t)
    (hb : ¬ blocked s) (h15 : ¬ isFX (fetch s) 0x15) (h18 : ¬ isFX (fetch s) 0x18) :
    t.delay_timer = (if s.delay_timer > 0 then s.delay_timer - 1 else 0) ∧
    t.sound_timer = (if s.sound_timer > 0 then s.sound_timer - 1 else 0) ∧
    t.beeps = s.beeps + (if s.sound_timer = 1 then 1 else 0) := by
  unfold emulate_cycle at h
  split_ifs at h with hpc
  split at h
  · simp at h
  · next u hu =>
    simp only [Option.some.injEq] at h
    subst h
    obtain ⟨e1, e2, e3⟩ := execute_sameTimers rnd _ _ hu h15 h18
    simp only [Step.state] at e1 e2 e3
    rw [update_timers_delay, update_timers_sound, update_timers_beeps, e1, e2, e3]
    refine ⟨?_, ?_, rfl⟩
    · split_ifs <;> omega
    · split_ifs <;> omega
  · next u hu =>
    exact absurd (execute_waiting rnd _ u hu) hb

/-- C9 at a concrete state: sound timer 1 and delay timer 9 before `6005`;
evaluated, the cycle ends with sound timer 0, delay timer 8 and one beep, and
the same cycle from sound timer 0 prints no beep. -/
theorem timer_tick_witness :
    (∀ t, emulate_cycle 0 timerDemo = some t →
      t.delay_timer = (if timerDemo.delay_timer > 0 then timerDemo.delay_timer - 1 else 0) ∧
      t.sound_timer = (if timerDemo.sound_timer > 0 then timerDemo.sound_timer - 1 else 0) ∧
      t.beeps = timerDemo.beeps + (if timerDemo.sound_timer = 1 then 1 else 0)) ∧
    (emulate_cycle 0 timerDemo).map (fun t => (t.delay_timer, t.sound_timer, t.beeps))
      = some (8, 0, 1) ∧
    (emulate_cycle 0 { timerDemo with sound_timer := 0 }).map
      (fun t => (t.delay_timer, t.sound_timer, t.beeps)) = some (8, 0, 0) :=
  ⟨fun t h => timer_tick 0 timerDemo t h (by decide) (by decide) (by decide),
    by decide, by decide⟩

/-! ## C10: opcodes outside the defined sub-cases -/

/-- C10, evaluated where the claim fails. With delay timer 9 and sound timer 1,
the opcodes `0001`, `E300` and `F300` at `PC = 0x200`: the claim gives
`PC = 0x202`; the inner switches of the classes `0x0`, `0xE` and `0xF` have no
default and no `PC += 2`, so the cycle ends with `PC = 0x200` (both timers
tick, one beep). The class `0x8` opcode `8128` does advance to `0x202`. -/
theorem unknown_opcode_stalls :
    (emulate_cycle 0 unknown0Demo).map
        (fun t => (t.PC, t.delay_timer, t.sound_timer, t.beeps)) = some (0x200, 8, 0, 1) ∧
    (emulate_cycle 0 unknownEDemo).map
        (fun t => (t.PC, t.delay_timer, t.sound_timer, t.beeps)) = some (0x200, 8, 0, 1) ∧
    (emulate_cycle 0 unknownFDemo).map
        (fun t => (t.PC, t.delay_timer, t.sound_timer, t.beeps)) = some (0x200, 8, 0, 1) ∧
    (emulate_cycle 0 unknown8Demo).map
        (fun t => (t.PC, t.delay_timer, t.sound_timer, t.beeps)) = some (0x202, 8, 0, 1) := by
  decide

/-! ## C14: binary-coded decimal -/

theorem emulate_cycle_F (rnd : Nat) (s : State) (hpc : s.PC + 1 < 4096)
    (hc : fetch s &&& 0xF000 = 0xF000) :
    emulate_cycle rnd s =
      match execF { s with opcode := fetch s } with
      | none => none
      | some (.done t) => some (update_timers t)
      | some (.waiting t) => some t := by
  rw [emulate_cycle_eq rnd s hpc, execute_F rnd _ hc]

/-- C14. For every opcode `FX33`, every value `v` of `VX` in 0..255 and every
`I` with `I + 2 ≤ 4095`, one `emulate_cycle` completes and leaves
`memory[I]`, `memory[I+1]`, `memory[I+2]` each in 0..9 with
`100 * memory[I] + 10 * memory[I+1] + memory[I+2] = v`; every other memory
byte, `I` and all registers are unchanged and `PC` has advanced by 2. -/
theorem bcd_store (rnd : Nat) (s : State) (X : Nat) (hX : X < 16) (hv : s.V X < 256)
    (hpc : s.PC + 1 < 4096) (hop : fetch s = 0xF033 + 0x100 * X) (hI : s.I + 2 ≤ 4095) :
    ∃ t, emulate_cycle rnd s = some t ∧
      t.memory s.I ≤ 9 ∧ t.memory (s.I + 1) ≤ 9 ∧ t.memory (s.I + 2) ≤ 9 ∧
      100 * t.memory s.I + 10 * t.memory (s.I + 1) + t.memory (s.I + 2) = s.V X ∧
      (∀ a, a ≠ s.I → a ≠ s.I + 1 → a ≠ s.I + 2 → t.memory a = s.memory a) ∧
      t.I = s.I ∧ t.V = s.V ∧ t.PC = s.PC + 2 := by
  have hc : fetch s &&& 0xF000 = 0xF000 := by rw [and_F000, hop]; omega
  have hx : opX (fetch s) = X := by rw [opX_eq, hop]; omega
  have hn : fetch s &&& 0x00FF = 0x33 := by rw [and_00FF, hop]; omega
  refine ⟨update_timers (advance 2 { s with
      opcode := fetch s
      memory := write (write (write s.memory s.I (u8 (s.V X / 100))) (s.I + 1)
        (u8 ((s.V X / 10) % 10))) (s.I + 2) (u8 (s.V X % 10)) }), ?_, ?_⟩
  · rw [emulate_cycle_F rnd s hpc hc]
    simp [execF, hn, hx, show s.I + 2 < 4096 by omega]
  · simp only [update_timers_memory, update_timers_I, update_timers_V, update_timers_PC,
      advance, write_apply, u8, u16]
    refine ⟨?_, ?_, ?_, ?_, ?_, trivial, trivial, ?_⟩
    · simp only [show s.I ≠ s.I + 2 by omega, show s.I ≠ s.I + 1 by omega, if_false, if_true]
      omega
    · simp only [show s.I + 1 ≠ s.I + 2 by omega, if_false, if_true]
      omega
    · simp only [if_true]
      omega
    · simp only [show s.I ≠ s.I + 2 by omega, show s.I ≠ s.I + 1 by omega,
        show s.I + 1 ≠ s.I + 2 by omega, if_false, if_true]
      omega
    · intro a h0 h1 h2
      simp only [h0, h1, h2, if_false]
    · omega

/-- C14 at a concrete state: `V2 = 254` stored at `I = 0x300` gives 2, 5, 4. -/
theorem bcd_store_witness :
    (∃ t, emulate_cycle 0 bcdDemo = some t ∧
      t.memory bcdDemo.I ≤ 9 ∧ t.memory (bcdDemo.I + 1) ≤ 9 ∧ t.memory (bcdDemo.I + 2) ≤ 9 ∧
      100 * t.memory bcdDemo.I + 10 * t.memory (bcdDemo.I + 1) + t.memory (bcdDemo.I + 2)
        = bcdDemo.V 2 ∧
      (∀ a, a ≠ bcdDemo.I → a ≠ bcdDemo.I + 1 → a ≠ bcdDemo.I + 2 →
        t.memory a = bcdDemo.memory a) ∧
      t.I = bcdDemo.I ∧ t.V = bcdDemo.V ∧ t.PC = bcdDemo.PC + 2) ∧
    (emulate_cycle 0 bcdDemo).map (fun t => (t.memory 0x300, t.memory 0x301, t.memory 0x302))
      = some (2, 5, 4) :=
  ⟨bcd_store 0 bcdDemo 2 (by decide) (by decide) (by decide) (by decide) (by decide),
    by decide⟩

/-! ## C19: the shift instructions -/

theorem and_one_eq (v : Nat) : v &&& 0x01 = v % 2 :=
  Nat.and_pow_two_sub_one_eq_mod v 1

theorem bit7_eq (v : Nat) : (v &&& 0x80) >>> 7 = v / 128 % 2 := by
  rw [shiftRight_and, Nat.shiftRight_eq_div_pow]
  exact Nat.and_pow_two_sub_one_eq_mod (v / 2 ^ 7) 1

/-- `8XY6` with `X` other than `0xF`. -/
theorem shift_right_core (rnd : Nat) (s : State) (X Y : Nat) (hX : X < 15) (hY : Y < 16)
    (hpc : s.PC + 1 < 4096) (hop : fetch s = 0x8006 + 0x100 * X + 0x10 * Y) :
    ∃ t, emulate_cycle rnd s = some t ∧
      t.V 0xF = s.V X % 2 ∧ t.V X = u8 (s.V X / 2) ∧
      (∀ k, k ≠ X → k ≠ 0xF → t.V k = s.V k) ∧ t.PC = s.PC + 2 := by
  have hc : fetch s &&& 0xF000 = 0x8000 := by rw [and_F000, hop]; omega
  have hx : opX (fetch s) = X := by rw [opX_eq, hop]; omega
  have hn : fetch s &&& 0x000F = 6 := by rw [and_000F, hop]; omega
  refine ⟨_, emulate_cycle_8 rnd s hpc hc, ?_, ?_, ?_, ?_⟩
  · simp only [update_timers_V, advance, exec8, hx, hn]
    simp [write_apply, show (15 : Nat) ≠ X by omega, and_one_eq]
  · simp only [update_timers_V, advance, exec8, hx, hn]
    simp [write_apply, show X ≠ 15 by omega, Nat.shiftRight_eq_div_pow]
  · intro k hk hk'
    simp only [update_timers_V, advance, exec8, hx, hn]
    simp [write_apply, hk, hk']
  · simp only [update_timers_PC, advance, exec8, hx, hn]
    simp [u16]
    omega

/-- `8XYE` with `X` other than `0xF`. -/
theorem shift_left_core (rnd : Nat) (s : State) (X Y : Nat) (hX : X < 15) (hY : Y < 16)
    (hpc : s.PC + 1 < 4096) (hop : fetch s = 0x800E + 0x100 * X + 0x10 * Y) :
    ∃ t, emulate_cycle rnd s = some t ∧
      t.V 0xF = s.V X / 128 % 2 ∧ t.V X = u8 (s.V X * 2) ∧
      (∀ k, k ≠ X → k ≠ 0xF → t.V k = s.V k) ∧ t.PC = s.PC + 2 := by
  have hc : fetch s &&& 0xF000 = 0x8000 := by rw [and_F000, hop]; omega
  have hx : opX (fetch s) = X := by rw [opX_eq, hop]; omega
  have hn : fetch s &&& 0x000F = 0xE := by rw [and_000F, hop]; omega
  refine ⟨_, emulate_cycle_8 rnd s hpc hc, ?_, ?_, ?_, ?_⟩
  · simp only [update_timers_V, advance, exec8, hx, hn]
    simp [write_apply, show (15 : Nat) ≠ X by omega, bit7_eq]
  · simp only [update_timers_V, advance, exec8, hx, hn]
    simp [write_apply, show X ≠ 15 by omega, Nat.shiftLeft_eq]
  · intro k hk hk'
    simp only [update_timers_V, advance, exec8, hx, hn]
    simp [write_apply, hk, hk']
  · simp only [update_timers_PC, advance, exec8, hx, hn]
    simp [u16]
    omega

theorem fetch_congr (s s' : State) (hm : s'.memory = s.memory) (hp : s'.PC = s.PC) :
    fetch s' = fetch s := by
  unfold fetch
  rw [hm, hp]

/-- C19. For every `X` other than `0xF`, every `Y` and every register file:
`8XY6` leaves `VF` = bit 0 of the old `VX` and `VX = old VX div 2`; `8XYE`
leaves `VF` = bit 7 of the old `VX` and `VX = (old VX * 2) mod 256`. In both
cases `VY` is unchanged (for `Y` other than `X` and `0xF`), `PC` has advanced
by 2, and the same cycle started with any other value `v` in `VY` (`Y ≠ X`)
ends with the same `VX` and `VF`. -/
theorem shift_uses_only_VX (rnd : Nat) (s : State) (X Y : Nat) (hX : X < 15) (hY : Y < 16)
    (hv : s.V X < 256) (hpc : s.PC + 1 < 4096) :
    (fetch s = 0x8006 + 0x100 * X + 0x10 * Y →
      ∃ t, emulate_cycle rnd s = some t ∧
        t.V 0xF = s.V X % 2 ∧ t.V X = s.V X / 2 ∧
        (Y ≠ X → Y ≠ 0xF → t.V Y = s.V Y) ∧ t.PC = s.PC + 2 ∧
        (Y ≠ X → ∀ v, ∃ t', emulate_cycle rnd { s with V := write s.V Y v } = some t' ∧
          t'.V 0xF = t.V 0xF ∧ t'.V X = t.V X)) ∧
    (fetch s = 0x800E + 0x100 * X + 0x10 * Y →
      ∃ t, emulate_cycle rnd s = some t ∧
        t.V 0xF = s.V X / 128 % 2 ∧ t.V X = (s.V X * 2) % 256 ∧
        (Y ≠ X → Y ≠ 0xF → t.V Y = s.V Y) ∧ t.PC = s.PC + 2 ∧
        (Y ≠ X → ∀ v, ∃ t', emulate_cycle rnd { s with V := write s.V Y v } = some t' ∧
          t'.V 0xF = t.V 0xF ∧ t'.V X = t.V X)) := by
  constructor
  · intro hop
    obtain ⟨t, ht, h1, h2, h3, h4⟩ := shift_right_core rnd s X Y hX hY hpc hop
    refine ⟨t, ht, h1, ?_, fun a b => h3 Y a b, h4, ?_⟩
    · rw [h2]; unfold u8; omega
    · intro hYX v
      obtain ⟨t', ht', h1', h2', _, _⟩ := shift_right_core rnd { s with V := write s.V Y v } X Y
        hX hY hpc ((fetch_congr _ s rfl rfl).trans hop)
      have e : write s.V Y v X = s.V X := write_other _ _ _ _ (fun c => hYX c.symm)
      refine ⟨t', ht', ?_, ?_⟩
      · rw [h1', h1]; show write s.V Y v X % 2 = s.V X % 2; rw [e]
      · rw [h2', h2]; show u8 (write s.V Y v X / 2) = u8 (s.V X / 2); rw [e]
  · intro hop
    obtain ⟨t, ht, h1, h2, h3, h4⟩ := shift_left_core rnd s X Y hX hY hpc hop
    refine ⟨t, ht, h1, ?_, fun a b => h3 Y a b, h4, ?_⟩
    · rw [h2]; rfl
    · intro hYX v
      obtain ⟨t', ht', h1', h2', _, _⟩ := shift_left_core rnd { s with V := write s.V Y v } X Y
        hX hY hpc ((fetch_congr _ s rfl rfl).trans hop)
      have e : write s.V Y v X = s.V X := write_other _ _ _ _ (fun c => hYX c.symm)
      refine ⟨t', ht', ?_, ?_⟩
      · rw [h1', h1]; show write s.V Y v X / 128 % 2 = s.V X / 128 % 2; rw [e]
      · rw [h2', h2]; show u8 (write s.V Y v X * 2) = u8 (s.V X * 2); rw [e]

/-- C19 at concrete states: `V1 = 0x85` shifted right gives `0x42` with
`VF = 1`, shifted left gives `0x0A` with `VF = 1`; `V2 = 0x33` is untouched. -/
theorem shift_uses_only_VX_witness :
    (∃ t, emulate_cycle 0 shiftRightDemo = some t ∧
        t.V 0xF = shiftRightDemo.V 1 % 2 ∧ t.V 1 = shiftRightDemo.V 1 / 2 ∧
        (2 ≠ 1 → 2 ≠ 0xF → t.V 2 = shiftRightDemo.V 2) ∧ t.PC = shiftRightDemo.PC + 2 ∧
        (2 ≠ 1 → ∀ v, ∃ t',
          emulate_cycle 0 { shiftRightDemo with V := write shiftRightDemo.V 2 v } = some t' ∧
          t'.V 0xF = t.V 0xF ∧ t'.V 1 = t.V 1)) ∧
    (∃ t, emulate_cycle 0 shiftLeftDemo = some t ∧
        t.V 0xF = shiftLeftDemo.V 1 / 128 % 2 ∧ t.V 1 = (shiftLeftDemo.V 1 * 2) % 256 ∧
        (2 ≠ 1 → 2 ≠ 0xF → t.V 2 = shiftLeftDemo.V 2) ∧ t.PC = shiftLeftDemo.PC + 2 ∧
        (2 ≠ 1 → ∀ v, ∃ t',
          emulate_cycle 0 { shiftLeftDemo with V := write shiftLeftDemo.V 2 v } = some t' ∧
          t'.V 0xF = t.V 0xF ∧ t'.V 1 = t.V 1)) ∧
    (emulate_cycle 0 shiftRightDemo).map (fun t => (t.V 1, t.V 2, t.V 0xF)) = some (0x42, 0x33, 1) ∧
    (emulate_cycle 0 shiftLeftDemo).map (fun t => (t.V 1, t.V 2, t.V 0xF)) = some (0x0A, 0x33, 1) :=
  ⟨(shift_uses_only_VX 0 shiftRightDemo 1 2 (by decide) (by decide) (by decide) (by decide)).1
      (by decide),
    (shift_uses_only_VX 0 shiftLeftDemo 1 2 (by decide) (by decide) (by decide) (by decide)).2
      (by decide),
    by decide, by decide⟩

/-! ## C20: font lookup -/

/-- C20. For every value `v` of `VX`, `FX29` sets `I = 5 * (v mod 16)` and
advances `PC` by 2, so `I + 4 ≤ 79`; and in any state whose `memory[0..80)`
holds the font written by `initialize_chip8`, the five bytes `memory[I..I+5)`
are the five bytes of the built-in glyph for the digit `v mod 16`. -/
theorem font_lookup (rnd : Nat) (s : State) (X : Nat) (hX : X < 16)
    (hpc : s.PC + 1 < 4096) (hop : fetch s = 0xF029 + 0x100 * X) :
    ∃ t, emulate_cycle rnd s = some t ∧
      t.I = 5 * (s.V X % 16) ∧ t.PC = s.PC + 2 ∧ t.I + 4 ≤ 79 ∧
      ((∀ i, i < 80 → s.memory i = chip8_fontset.getD i 0) →
        (List.range 5).map (fun j => t.memory (t.I + j)) = glyph (s.V X % 16)) := by
  have hc : fetch s &&& 0xF000 = 0xF000 := by rw [and_F000, hop]; omega
  have hx : opX (fetch s) = X := by rw [opX_eq, hop]; omega
  have hn : fetch s &&& 0x00FF = 0x29 := by rw [and_00FF, hop]; omega
  have hd : s.V X % 16 < 16 := Nat.mod_lt _ (by norm_num)
  have hI : u16 ((s.V X &&& 0x0F) * 5) = 5 * (s.V X % 16) := by
    rw [and_000F]; unfold u16; omega
  refine ⟨update_timers (advance 2 { s with opcode := fetch s, I := 5 * (s.V X % 16) }),
    ?_, ?_, ?_, ?_, ?_⟩
  · rw [emulate_cycle_F rnd s hpc hc]
    simp [execF, hn, hx, hI]
  · simp [advance]
  · simp [advance, u16]; omega
  · simp [advance]; omega
  · intro hfont
    simp only [update_timers_memory, update_timers_I, advance]
    have e : (List.range 5).map (fun j => s.memory (5 * (s.V X % 16) + j))
        = (List.range 5).map (fun j => chip8_fontset.getD (5 * (s.V X % 16) + j) 0) := by
      apply List.map_congr_left
      intro j hj
      have := List.mem_range.mp hj
      exact hfont _ (by omega)
    rw [e]
    generalize s.V X % 16 = d at hd
    interval_cases d <;> rfl

/-- C20 at a concrete state: `V4 = 0x3A` selects the glyph of `A` at `I = 50`. -/
theorem font_lookup_witness :
    (∃ t, emulate_cycle 0 fontDemo = some t ∧
      t.I = 5 * (fontDemo.V 4 % 16) ∧ t.PC = fontDemo.PC + 2 ∧ t.I + 4 ≤ 79 ∧
      ((∀ i, i < 80 → fontDemo.memory i = chip8_fontset.getD i 0) →
        (List.range 5).map (fun j => t.memory (t.I + j)) = glyph (fontDemo.V 4 % 16))) ∧
    (emulate_cycle 0 fontDemo).map (fun t => (t.I, (List.range 5).map (fun j => t.memory (t.I + j))))
      = some (50, [0xF0, 0x90, 0xF0, 0x90, 0x90]) :=
  ⟨font_lookup 0 fontDemo 4 (by decide) (by decide) (by decide), by decide⟩

/-! ## C16: conditional skips -/

theorem skip_cycle (rnd : Nat) (s : State) (k : Nat) (hpc : s.PC + 1 < 4096) (hk : k ≤ 4)
    (h : execute rnd { s with opcode := fetch s }
      = some (.done (advance k { s with opcode := fetch s }))) :
    ∃ t, emulate_cycle rnd s = some t ∧ t.PC = s.PC + k ∧ skipFrame s t := by
  refine ⟨update_timers (advance k { s with opcode := fetch s }), ?_, ?_, ?_⟩
  · rw [emulate_cycle_eq rnd s hpc, h]
  · simp [advance, u16]; omega
  · simp [skipFrame, advance]

/-- C16. For every state and each of the opcodes `3XKK` (`VX = KK`), `4XKK`
(`VX ≠ KK`), `5XY0` (`VX = VY`) and `9XY0` (`VX ≠ VY`), one `emulate_cycle`
sets `PC` to the old `PC + 4` when the condition holds on the current
registers and to the old `PC + 2` otherwise, and changes no register, no
memory byte, `I`, the stack or the display. -/
theorem conditional_skips (rnd : Nat) (s : State) (X Y KK : Nat)
    (hX : X < 16) (hY : Y < 16) (hKK : KK < 256) (hpc : s.PC + 1 < 4096) :
    (fetch s = 0x3000 + 0x100 * X + KK →
      ∃ t, emulate_cycle rnd s = some t ∧
        t.PC = s.PC + (if s.V X = KK then 4 else 2) ∧ skipFrame s t) ∧
    (fetch s = 0x4000 + 0x100 * X + KK →
      ∃ t, emulate_cycle rnd s = some t ∧
        t.PC = s.PC + (if s.V X ≠ KK then 4 else 2) ∧ skipFrame s t) ∧
    (fetch s = 0x5000 + 0x100 * X + 0x10 * Y →
      ∃ t, emulate_cycle rnd s = some t ∧
        t.PC = s.PC + (if s.V X = s.V Y then 4 else 2) ∧ skipFrame s t) ∧
    (fetch s = 0x9000 + 0x100 * X + 0x10 * Y →
      ∃ t, emulate_cycle rnd s = some t ∧
        t.PC = s.PC + (if s.V X ≠ s.V Y then 4 else 2) ∧ skipFrame s t) := by
  refine ⟨?_, ?_, ?_, ?_⟩
  · intro hop
    have hc : fetch s &&& 0xF000 = 0x3000 := by rw [and_F000, hop]; omega
    have hx : opX (fetch s) = X := by rw [opX_eq, hop]; omega
    have hkk : fetch s &&& 0x00FF = KK := by rw [and_00FF, hop]; omega
    by_cases c : s.V X = KK
    · rw [if_pos c]
      exact skip_cycle rnd s 4 hpc (by omega) (by simp [execute, hc, hx, hkk, c])
    · rw [if_neg c]
      exact skip_cycle rnd s 2 hpc (by omega) (by simp [execute, hc, hx, hkk, c])
  · intro hop
    have hc : fetch s &&& 0xF000 = 0x4000 := by rw [and_F000, hop]; omega
    have hx : opX (fetch s) = X := by rw [opX_eq, hop]; omega
    have hkk : fetch s &&& 0x00FF = KK := by rw [and_00FF, hop]; omega
    by_cases c : s.V X = KK
    · rw [if_neg (not_not.mpr c)]
      exact skip_cycle rnd s 2 hpc (by omega) (by simp [execute, hc, hx, hkk, c])
    · rw [if_pos c]
      exact skip_cycle rnd s 4 hpc (by omega) (by simp [execute, hc, hx, hkk, c])
  · intro hop
    have hc : fetch s &&& 0xF000 = 0x5000 := by rw [and_F000, hop]; omega
    have hx : opX (fetch s) = X := by rw [opX_eq, hop]; omega
    have hy : opY (fetch s) = Y := by rw [opY_eq, hop]; omega
    by_cases c : s.V X = s.V Y
    · rw [if_pos c]
      exact skip_cycle rnd s 4 hpc (by omega) (by simp [execute, hc, hx, hy, c])
    · rw [if_neg c]
      exact skip_cycle rnd s 2 hpc (by omega) (by simp [execute, hc, hx, hy, c])
  · intro hop
    have hc : fetch s &&& 0xF000 = 0x9000 := by rw [and_F000, hop]; omega
    have hx : opX (fetch s) = X := by rw [opX_eq, hop]; omega
    have hy : opY (fetch s) = Y := by rw [opY_eq, hop]; omega
    by_cases c : s.V X = s.V Y
    · rw [if_neg (not_not.mpr c)]
      exact skip_cycle rnd s 2 hpc (by omega) (by simp [execute, hc, hx, hy, c])
    · rw [if_pos c]
      exact skip_cycle rnd s 4 hpc (by omega) (by simp [execute, hc, hx, hy, c])

/-- C16 at concrete states with `V1 = 7`, `V2 = 9`: `3107` skips, `4107` does
not, `5120` does not, `9120` skips. -/
theorem conditional_skips_witness :
    (∃ t, emulate_cycle 0 (skipDemo 0x31 0x07) = some t ∧
      t.PC = (skipDemo 0x31 0x07).PC + (if (skipDemo 0x31 0x07).V 1 = 7 then 4 else 2) ∧
      skipFrame (skipDemo 0x31 0x07) t) ∧
    (∃ t, emulate_cycle 0 (skipDemo 0x41 0x07) = some t ∧
      t.PC = (skipDemo 0x41 0x07).PC + (if (skipDemo 0x41 0x07).V 1 ≠ 7 then 4 else 2) ∧
      skipFrame (skipDemo 0x41 0x07) t) ∧
    (∃ t, emulate_cycle 0 (skipDemo 0x51 0x20) = some t ∧
      t.PC = (skipDemo 0x51 0x20).PC +
        (if (skipDemo 0x51 0x20).V 1 = (skipDemo 0x51 0x20).V 2 then 4 else 2) ∧
      skipFrame (skipDemo 0x51 0x20) t) ∧
    (∃ t, emulate_cycle 0 (skipDemo 0x91 0x20) = some t ∧
      t.PC = (skipDemo 0x91 0x20).PC +
        (if (skipDemo 0x91 0x20).V 1 ≠ (skipDemo 0x91 0x20).V 2 then 4 else 2) ∧
      skipFrame (skipDemo 0x91 0x20) t) ∧
    [(emulate_cycle 0 (skipDemo 0x31 0x07)).map (fun t => t.PC),
     (emulate_cycle 0 (skipDemo 0x41 0x07)).map (fun t => t.PC),
     (emulate_cycle 0 (skipDemo 0x51 0x20)).map (fun t => t.PC),
     (emulate_cycle 0 (skipDemo 0x91 0x20)).map (fun t => t.PC)]
      = [some 0x204, some 0x202, some 0x202, some 0x204] :=
  ⟨(conditional_skips 0 (skipDemo 0x31 0x07) 1 0 7 (by decide) (by decide) (by decide)
      (by decide)).1 (by decide),
    (conditional_skips 0 (skipDemo 0x41 0x07) 1 0 7 (by decide) (by decide) (by decide)
      (by decide)).2.1 (by decide),
    (conditional_skips 0 (skipDemo 0x51 0x20) 1 2 0 (by decide) (by decide) (by decide)
      (by decide)).2.2.1 (by decide),
    (conditional_skips 0 (skipDemo 0x91 0x20) 1 2 0 (by decide) (by decide) (by decide)
      (by decide)).2.2.2 (by decide),
    by decide⟩

/-! ## C15: register dump and load -/

/-- Closed form of the store loop of `FX55`. -/
theorem dump_loop (n : Nat) (s : State) (h : s.I + n ≤ 4096) :
    forUpToM n (fun i s =>
        if s.I + i < 4096 then some { s with memory := write s.memory (s.I + i) (s.V i) }
        else none) s
      = some { s with memory := fun a =>
          if s.I ≤ a ∧ a < s.I + n then s.V (a - s.I) else s.memory a } := by
  induction n with
  | zero =>
    simp only [forUpToM]
    congr 1
    have : s.memory = fun a => if s.I ≤ a ∧ a < s.I + 0 then s.V (a - s.I) else s.memory a := by
      funext a
      rw [if_neg (by omega)]
    rw [← this]
  | succ n ih =>
    simp only [forUpToM, ih (by omega), Option.some_bind]
    rw [if_pos (by omega)]
    congr 2
    funext a
    by_cases e : a = s.I + n
    · subst e
      simp
    · rw [write_other _ _ _ _ e]
      by_cases c : s.I ≤ a ∧ a < s.I + n
      · rw [if_pos c, if_pos (by omega)]
      · rw [if_neg c, if_neg (by omega)]

/-- Closed form of the load loop of `FX65`. -/
theorem load_loop (n : Nat) (s : State) (h : s.I + n ≤ 4096) :
    forUpToM n (fun i s =>
        if s.I + i < 4096 then some { s with V := write s.V i (s.memory (s.I + i)) }
        else none) s
      = some { s with V := fun i => if i < n then s.memory (s.I + i) else s.V i } := by
  induction n with
  | zero =>
    simp only [forUpToM]
    congr 1
  | succ n ih =>
    simp only [forUpToM, ih (by omega), Option.some_bind]
    rw [if_pos (by omega)]
    congr 2
    funext i
    by_cases e : i = n
    · subst e
      simp
    · rw [write_other _ _ _ _ e]
      by_cases c : i < n
      · rw [if_pos c, if_pos (by omega)]
      · rw [if_neg c, if_neg (by omega)]

/-- One cycle on `FX55`. -/
theorem dump_cycle (rnd : Nat) (s : State) (X : Nat) (hX : X < 16) (hpc : s.PC + 1 < 4096)
    (hop : fetch s = 0xF055 + 0x100 * X) (hI : s.I + X ≤ 4095) :
    emulate_cycle rnd s = some (update_timers (advance 2 { s with
      opcode := fetch s
      memory := fun a => if s.I ≤ a ∧ a < s.I + (X + 1) then s.V (a - s.I) else s.memory a })) := by
  have hc : fetch s &&& 0xF000 = 0xF000 := by rw [and_F000, hop]; omega
  have hx : opX (fetch s) = X := by rw [opX_eq, hop]; omega
  have hn : fetch s &&& 0x00FF = 0x55 := by rw [and_00FF, hop]; omega
  have hl := dump_loop (X + 1) { s with opcode := fetch s } (by show s.I + (X + 1) ≤ 4096; omega)
  rw [emulate_cycle_F rnd s hpc hc]
  dsimp only at hl
  simp [execF, hn, hx, hl]

/-- One cycle on `FX65`. -/
theorem load_cycle (rnd : Nat) (s : State) (X : Nat) (hX : X < 16) (hpc : s.PC + 1 < 4096)
    (hop : fetch s = 0xF065 + 0x100 * X) (hI : s.I + X ≤ 4095) :
    emulate_cycle rnd s = some (update_timers (advance 2 { s with
      opcode := fetch s
      V := fun i => if i < X + 1 then s.memory (s.I + i) else s.V i })) := by
  have hc : fetch s &&& 0xF000 = 0xF000 := by rw [and_F000, hop]; omega
  have hx : opX (fetch s) = X := by rw [opX_eq, hop]; omega
  have hn : fetch s &&& 0x00FF = 0x65 := by rw [and_00FF, hop]; omega
  have hl := load_loop (X + 1) { s with opcode := fetch s } (by show s.I + (X + 1) ≤ 4096; omega)
  rw [emulate_cycle_F rnd s hpc hc]
  dsimp only at hl
  simp [execF, hn, hx, hl]

/-- C15. For every `X` in 0..15 and every `I` with `I + X ≤ 4095`, `FX55`
writes `memory[I + i] = Vi` for every `i ≤ X` and changes neither `I`, any
register, nor any memory byte outside `I..I+X`; and from any state with the
same memory and `I` (registers arbitrary) whose opcode is `FX65` with the same
`X`, the load restores `V0..VX` to the dumped values, leaves the registers
above `X` and `I` unchanged, and advances `PC` by 2. -/
theorem dump_load_roundtrip (rnd rnd' : Nat) (s : State) (X : Nat) (hX : X < 16)
    (hpc : s.PC + 1 < 4096) (hop : fetch s = 0xF055 + 0x100 * X) (hI : s.I + X ≤ 4095) :
    ∃ t, emulate_cycle rnd s = some t ∧
      (∀ i, i ≤ X → t.memory (s.I + i) = s.V i) ∧ t.I = s.I ∧ t.V = s.V ∧
      (∀ a, a < s.I ∨ s.I + X < a → t.memory a = s.memory a) ∧ t.PC = s.PC + 2 ∧
      ∀ t', t'.memory = t.memory → t'.I = t.I → t'.PC + 1 < 4096 →
        fetch t' = 0xF065 + 0x100 * X →
        ∃ u, emulate_cycle rnd' t' = some u ∧
          (∀ i, i ≤ X → u.V i = s.V i) ∧ (∀ k, X < k → u.V k = t'.V k) ∧
          u.I = t'.I ∧ u.PC = t'.PC + 2 := by
  refine ⟨_, dump_cycle rnd s X hX hpc hop hI, ?_, ?_, ?_, ?_, ?_, ?_⟩
  · intro i hi
    simp only [update_timers_memory, advance]
    rw [if_pos (by omega)]
    congr 1
    omega
  · simp [advance]
  · simp [advance]
  · intro a ha
    simp only [update_timers_memory, advance]
    rw [if_neg (by omega)]
  · simp [advance, u16]; omega
  · intro t' hm hI' hpc' hop'
    simp only [update_timers_memory, update_timers_I, advance] at hm hI'
    refine ⟨_, load_cycle rnd' t' X hX hpc' hop' (by rw [hI']; exact hI), ?_, ?_, ?_, ?_⟩
    · intro i hi
      simp only [update_timers_V, advance]
      rw [if_pos (by omega), hm, hI']
      show (if s.I ≤ s.I + i ∧ s.I + i < s.I + (X + 1) then s.V (s.I + i - s.I)
        else s.memory (s.I + i)) = s.V i
      rw [if_pos (by omega)]
      congr 1
      omega
    · intro k hk
      simp only [update_timers_V, advance]
      rw [if_neg (by omega)]
    · simp [advance]
    · simp [advance, u16]; omega

/-- C15 at a concrete state: `V0..V2 = 11, 22, 33` dumped at `0x300`, the
registers zeroed, then loaded back by `F265` at `0x202`. -/
theorem dump_load_roundtrip_witness :
    (∃ t, emulate_cycle 0 dumpDemo = some t ∧
      (∀ i, i ≤ 2 → t.memory (dumpDemo.I + i) = dumpDemo.V i) ∧ t.I = dumpDemo.I ∧
      t.V = dumpDemo.V ∧
      (∀ a, a < dumpDemo.I ∨ dumpDemo.I + 2 < a → t.memory a = dumpDemo.memory a) ∧
      t.PC = dumpDemo.PC + 2 ∧
      ∀ t', t'.memory = t.memory → t'.I = t.I → t'.PC + 1 < 4096 →
        fetch t' = 0xF065 + 0x100 * 2 →
        ∃ u, emulate_cycle 0 t' = some u ∧
          (∀ i, i ≤ 2 → u.V i = dumpDemo.V i) ∧ (∀ k, 2 < k → u.V k = t'.V k) ∧
          u.I = t'.I ∧ u.PC = t'.PC + 2) ∧
    ((emulate_cycle 0 dumpDemo).bind
        (fun t => emulate_cycle 0 { t with V := fun _ => 0 })).map
      (fun u => ((List.range 4).map u.V, (List.range 4).map (fun i => u.memory (0x300 + i)), u.PC))
      = some ([11, 22, 33, 0], [11, 22, 33, 0], 0x204) :=
  ⟨dump_load_roundtrip 0 0 dumpDemo 2 (by decide) (by decide) (by decide) (by decide),
    by decide⟩

/-! ## C13: program load -/

/-- Closed form of a store loop starting at address `base`. -/
theorem forUpTo_memory_from (base n : Nat) (f : Nat → Nat) (s : State) :
    forUpTo n (fun i s => { s with memory := write s.memory (base + i) (f i) }) s
      = { s with memory := fun a =>
          if base ≤ a ∧ a < base + n then f (a - base) else s.memory a } := by
  induction n with
  | zero =>
    simp only [forUpTo]
    have : s.memory = fun a => if base ≤ a ∧ a < base + 0 then f (a - base) else s.memory a := by
      funext a
      rw [if_neg (by omega)]
    rw [← this]
  | succ n ih =>
    simp only [forUpTo, ih]
    congr 1
    funext a
    by_cases e : a = base + n
    · subst e
      simp
    · rw [write_other _ _ _ _ e]
      by_cases c : base ≤ a ∧ a < base + n
      · rw [if_pos c, if_pos (by omega)]
      · rw [if_neg c, if_neg (by omega)]

/-- Closed form of `load_program` on a file read without error. -/
theorem load_program_eq (bytes : List Nat) (s : State) :
    load_program (some { bytes := bytes, readError := false }) s
      = some { s with memory := fun a =>
          if 0x200 ≤ a ∧ a < 0x200 + min bytes.length (4096 - 0x200)
          then bytes.getD (a - 0x200) 0 else s.memory a } := by
  simp only [load_program]
  rw [forUpTo_memory_from 0x200 _ (fun i => bytes.getD i 0)]
  simp

/-- C13 as stated fails: a file of 3585 bytes (more than `4096 - 0x200 = 3584`)
is loaded without failure; its first 3584 bytes fill `memory[0x200..0xFFF]`,
and its last byte `0x01` is not stored: the cell behind the memory keeps its 0. -/
theorem load_program_truncates :
    longFile.bytes.length = 3585 ∧ longFile.bytes.getD 3584 0 = 0x01 ∧
    ∃ t, load_program (some longFile) blank = some t ∧
      t.memory 0x200 = 0x01 ∧ t.memory 0xFFF = 0x01 ∧ t.memory 0x1000 = 0 := by
  have hb : longFile.bytes = List.replicate 3585 0x01 := rfl
  have hl : longFile.bytes.length = 3585 := by rw [hb, List.length_replicate]
  refine ⟨hl, ?_, _, load_program_eq longFile.bytes blank, ?_, ?_, ?_⟩
  · rw [hb, List.getD_eq_getElem?_getD, List.getElem?_replicate_of_lt (by norm_num)]
    rfl
  · dsimp only
    rw [hl, if_pos (by decide), hb, List.getD_eq_getElem?_getD,
      List.getElem?_replicate_of_lt (by norm_num)]
    rfl
  · dsimp only
    rw [hl, if_pos (by decide), hb, List.getD_eq_getElem?_getD,
      List.getElem?_replicate_of_lt (by norm_num)]
    rfl
  · dsimp only
    rw [hl, if_neg (by decide)]
    rfl

/-- C13, amended. For every byte sequence read without error, `load_program`
succeeds; `memory[0x200 + i]` equals byte `i` for every `i` below the length
and below 3584; every memory byte below `0x200` is unchanged; every cell from
`0x200 + min length 3584` on is unchanged, so nothing is stored at or behind
address 4096 and the bytes of the file from the 3585th on are ignored; and
nothing but memory changes. -/
theorem load_program_spec (bytes : List Nat) (s : State) :
    ∃ t, load_program (some { bytes := bytes, readError := false }) s = some t ∧
      (∀ i, i < bytes.length → i < 4096 - 0x200 → t.memory (0x200 + i) = bytes.getD i 0) ∧
      (∀ a, a < 0x200 → t.memory a = s.memory a) ∧
      (∀ a, 0x200 + min bytes.length (4096 - 0x200) ≤ a → t.memory a = s.memory a) ∧
      t = { s with memory := t.memory } := by
  refine ⟨_, load_program_eq bytes s, ?_, ?_, ?_, rfl⟩
  · intro i h1 h2
    show (if 0x200 ≤ 0x200 + i ∧ 0x200 + i < 0x200 + min bytes.length (4096 - 0x200)
      then bytes.getD (0x200 + i - 0x200) 0 else s.memory (0x200 + i)) = bytes.getD i 0
    have e : 0x200 + i - 0x200 = i := by omega
    rw [if_pos (by omega), e]
  · intro a ha
    show (if 0x200 ≤ a ∧ a < 0x200 + min bytes.length (4096 - 0x200)
      then bytes.getD (a - 0x200) 0 else s.memory a) = s.memory a
    rw [if_neg (by omega)]
  · intro a ha
    show (if 0x200 ≤ a ∧ a < 0x200 + min bytes.length (4096 - 0x200)
      then bytes.getD (a - 0x200) 0 else s.memory a) = s.memory a
    rw [if_neg (by omega)]

/-- C13, amended, at a concrete file of three bytes and at the file of 3585
bytes; evaluated, the three bytes land at `0x200..0x202` and the bytes below
and above are untouched. -/
theorem load_program_spec_witness :
    (∃ t, load_program (some { bytes := [0x60, 0x05, 0x12], readError := false }) blank = some t ∧
      (∀ i, i < [0x60, 0x05, 0x12].length → i < 4096 - 0x200 →
        t.memory (0x200 + i) = [0x60, 0x05, 0x12].getD i 0) ∧
      (∀ a, a < 0x200 → t.memory a = blank.memory a) ∧
      (∀ a, 0x200 + min [0x60, 0x05, 0x12].length (4096 - 0x200) ≤ a →
        t.memory a = blank.memory a) ∧
      t = { blank with memory := t.memory }) ∧
    (∃ t, load_program (some { bytes := longFile.bytes, readError := false }) blank = some t ∧
      (∀ i, i < longFile.bytes.length → i < 4096 - 0x200 →
        t.memory (0x200 + i) = longFile.bytes.getD i 0) ∧
      (∀ a, a < 0x200 → t.memory a = blank.memory a) ∧
      (∀ a, 0x200 + min longFile.bytes.length (4096 - 0x200) ≤ a →
        t.memory a = blank.memory a) ∧
      t = { blank with memory := t.memory }) ∧
    (load_program (some shortFile) blank).map
        (fun t => (List.range 5).map (fun i => t.memory (0x1FF + i)))
      = some [0, 0x60, 0x05, 0x12, 0] :=
  ⟨load_program_spec [0x60, 0x05, 0x12] blank, load_program_spec longFile.bytes blank,
    by decide⟩

/-! ## Frames: what each instruction class can change -/

theorem forUpTo_inv {σ : Type} (P : σ → Prop) (n : Nat) (body : Nat → σ → σ)
    (hb : ∀ i u, P u → P (body i u)) (s : σ) (h : P s) : P (forUpTo n body s) := by
  induction n with
  | zero => exact h
  | succ n ih => exact hb n _ ih

theorem forUpToM_inv {σ : Type} (P : σ → Prop) (n : Nat) (body : Nat → σ → Option σ)
    (hb : ∀ i u v, body i u = some v → P u → P v) (s t : σ)
    (ht : forUpToM n body s = some t) (h : P s) : P t := by
  induction n generalizing t with
  | zero =>
    simp only [forUpToM, Option.some.injEq] at ht
    subst ht
    exact h
  | succ n ih =>
    simp only [forUpToM] at ht
    cases hm : forUpToM n body s with
    | none => rw [hm] at ht; simp at ht
    | some u =>
      rw [hm] at ht
      exact hb n u t ht (ih u hm)

theorem State.eq_of_fields (a b : State) (h1 : a.memory = b.memory) (h2 : a.V = b.V)
    (h3 : a.I = b.I) (h4 : a.PC = b.PC) (h5 : a.delay_timer = b.delay_timer)
    (h6 : a.sound_timer = b.sound_timer) (h7 : a.stack = b.stack) (h8 : a.SP = b.SP)
    (h9 : a.draw_flag = b.draw_flag) (h10 : a.gfx = b.gfx) (h11 : a.opcode = b.opcode)
    (h12 : a.key = b.key) (h13 : a.beeps = b.beeps) : a = b := by
  cases a
  cases b
  simp only [State.mk.injEq]
  exact ⟨h1, h2, h3, h4, h5, h6, h7, h8, h9, h10, h11, h12, h13⟩

/-- Class `0x8000` changes only the registers. -/
theorem exec8_frame (s : State) : exec8 s = { s with V := (exec8 s).V } := by
  apply State.eq_of_fields
  case h2 => rfl
  all_goals
    unfold exec8
    simp only [apply_ite State.memory, apply_ite State.I, apply_ite State.PC,
      apply_ite State.delay_timer, apply_ite State.sound_timer, apply_ite State.stack,
      apply_ite State.SP, apply_ite State.draw_flag, apply_ite State.gfx,
      apply_ite State.opcode, apply_ite State.key, apply_ite State.beeps, ite_self]

/-- Class `0xE000` changes only `PC`. -/
theorem execE_frame (s : State) : (execE s).state = { s with PC := (execE s).state.PC } := by
  unfold execE
  split_ifs <;> rfl

theorem frameVG_trans (s u v : State) (h1 : u = { s with V := u.V, gfx := u.gfx })
    (h2 : v = { u with V := v.V, gfx := v.gfx }) : v = { s with V := v.V, gfx := v.gfx } := by
  cases s
  cases u
  cases v
  simp only [State.mk.injEq, true_and, and_true] at h1 h2 ⊢
  obtain ⟨a1, a2, a3, a4, a5, a6, a7, a8, a9, a10, a11⟩ := h1
  obtain ⟨b1, b2, b3, b4, b5, b6, b7, b8, b9, b10, b11⟩ := h2
  exact ⟨b1.trans a1, b2.trans a2, b3.trans a3, b4.trans a4, b5.trans a5, b6.trans a6,
    b7.trans a7, b8.trans a8, b9.trans a9, b10.trans a10, b11.trans a11⟩

/-- One pixel of a draw changes only `VF` and the display. -/
theorem drawPixel_frame (X Y p r c : Nat) (s u : State) (h : u = { s with V := u.V, gfx := u.gfx }) :
    drawPixel X Y p r c u
      = { s with V := (drawPixel X Y p r c u).V, gfx := (drawPixel X Y p r c u).gfx } := by
  have e : drawPixel X Y p r c u = { u with
      V := (drawPixel X Y p r c u).V
      gfx := (drawPixel X Y p r c u).gfx } := by
    unfold drawPixel
    split_ifs <;> rfl
  exact frameVG_trans s u _ h e

/-- Class `0xD000` changes only the registers, the display, the redraw flag and `PC`. -/
theorem execD_frame (s : State) (st : Step) (h : execD s = some st) :
    st.state = { s with V := st.state.V, gfx := st.state.gfx, draw_flag := true,
                        PC := st.state.PC } := by
  unfold execD at h
  simp only [Option.map_eq_some'] at h
  obtain ⟨u, hu, rfl⟩ := h
  have hf : u = { s with V := u.V, gfx := u.gfx } := by
    refine forUpToM_inv (fun u => u = { s with V := u.V, gfx := u.gfx }) _ _ ?_ _ _ hu rfl
    intro i a b hab ha
    unfold drawRow at hab
    split_ifs at hab
    simp only [Option.some.injEq] at hab
    subst hab
    exact forUpTo_inv (fun u => u = { s with V := u.V, gfx := u.gfx }) 8 _
      (fun c w hw => drawPixel_frame _ _ _ _ c s w hw) a ha
  simp only [Step.state, advance]
  rw [hf]

/-- Class `0xF000` leaves the stack, the display and the redraw flag alone. -/
theorem execF_keeps (s : State) (st : Step) (h : execF s = some st) :
    sameStack s st.state ∧ sameDisplay s st.state := by
  have triv : ∀ u : State, sameStack u u ∧ sameDisplay u u := fun u => ⟨⟨rfl, rfl⟩, rfl, rfl⟩
  by_cases h07 : s.opcode &&& 0x00FF = 0x07
  · simp [execF, h07] at h
    subst h
    exact triv s
  by_cases h0A : s.opcode &&& 0x00FF = 0x0A
  · cases hf : firstKey s.key 16 0 with
    | none =>
      simp [execF, h0A, hf] at h
      subst h
      exact triv s
    | some k =>
      simp [execF, h0A, hf] at h
      subst h
      exact triv s
  by_cases h15 : s.opcode &&& 0x00FF = 0x15
  · simp [execF, h15] at h
    subst h
    exact triv s
  by_cases h18 : s.opcode &&& 0x00FF = 0x18
  · simp [execF, h18] at h
    subst h
    exact triv s
  by_cases h1E : s.opcode &&& 0x00FF = 0x1E
  · simp [execF, h1E] at h
    subst h
    exact triv s
  by_cases h29 : s.opcode &&& 0x00FF = 0x29
  · simp [execF, h29] at h
    subst h
    exact triv s
  by_cases h33 : s.opcode &&& 0x00FF = 0x33
  · simp [execF, h33] at h
    obtain ⟨_, h⟩ := h
    subst h
    exact triv s
  by_cases h55 : s.opcode &&& 0x00FF = 0x55
  · simp [execF, h55] at h
    obtain ⟨u, hu, h⟩ := h
    subst h
    have hk : sameStack s u ∧ sameDisplay s u := by
      refine forUpToM_inv (fun u => sameStack s u ∧ sameDisplay s u) _ _ ?_ _ _ hu (triv s)
      intro i a b hab ha
      split_ifs at hab
      simp only [Option.some.injEq] at hab
      subst hab
      exact ha
    exact hk
  by_cases h65 : s.opcode &&& 0x00FF = 0x65
  · simp [execF, h65] at h
    obtain ⟨u, hu, h⟩ := h
    subst h
    have hk : sameStack s u ∧ sameDisplay s u := by
      refine forUpToM_inv (fun u => sameStack s u ∧ sameDisplay s u) _ _ ?_ _ _ hu (triv s)
      intro i a b hab ha
      split_ifs at hab
      simp only [Option.some.injEq] at hab
      subst hab
      exact ha
    exact hk
  simp [execF, h07, h0A, h15, h18, h1E, h29, h33, h55, h65] at h
  subst h
  exact triv s

/-- The three cases of class `0x0000`. -/
theorem exec0_cases (s : State) (st : Step) (h : exec0 s = some st) :
    (s.opcode &&& 0x000F = 0x0000 ∧
      st = .done (advance 2 { s with gfx := fun a => if a < 64 * 32 then 0 else s.gfx a
                                     draw_flag := true })) ∨
    (s.opcode &&& 0x000F = 0x000E ∧ u8 (s.SP + 255) < 16 ∧
      st = .done (advance 2 { s with SP := u8 (s.SP + 255), PC := s.stack (u8 (s.SP + 255)) })) ∨
    (s.opcode &&& 0x000F ≠ 0x0000 ∧ s.opcode &&& 0x000F ≠ 0x000E ∧ st = .done s) := by
  unfold exec0 at h
  rw [clear_gfx_eq] at h
  by_cases h0 : s.opcode &&& 0x000F = 0x0000
  · rw [if_pos h0] at h
    simp only [Option.some.injEq] at h
    exact Or.inl ⟨h0, h.symm⟩
  · rw [if_neg h0] at h
    by_cases hE : s.opcode &&& 0x000F = 0x000E
    · rw [if_pos hE] at h
      by_cases hsp : u8 (s.SP + 255) < 16
      · simp only [hsp, if_true, Option.some.injEq] at h
        exact Or.inr (Or.inl ⟨hE, hsp, h.symm⟩)
      · simp only [hsp, if_false] at h
        cases h
    · rw [if_neg hE] at h
      simp only [Option.some.injEq] at h
      exact Or.inr (Or.inr ⟨h0, hE, h.symm⟩)

theorem exec8_SP (s : State) : (exec8 s).SP = s.SP := by rw [exec8_frame]

theorem exec8_sameDisplay (s : State) : sameDisplay s (exec8 s) :=
  ⟨by rw [exec8_frame], by rw [exec8_frame]⟩

theorem execE_SP (s : State) : (execE s).state.SP = s.SP := by rw [execE_frame]

theorem execE_sameDisplay (s : State) : sameDisplay s (execE s).state :=
  ⟨by rw [execE_frame], by rw [execE_frame]⟩

theorem execD_SP (s : State) (st : Step) (h : execD s = some st) : st.state.SP = s.SP := by
  rw [execD_frame s st h]

/-- The stack pointer after one decoded instruction stays at most 16. -/
theorem execute_SP (rnd : Nat) (s : State) (st : Step) (h : execute rnd s = some st)
    (hs : s.SP ≤ 16) : st.state.SP ≤ 16 := by
  rcases execute_shape rnd s with ⟨_, e⟩ | ⟨_, e⟩ | ⟨_, e⟩ | ⟨_, e⟩ | ⟨_, e⟩ | ⟨_, e⟩ |
    ⟨_, _, _, _, _, _, t, e, ht⟩
  · rw [e] at h
    rcases exec0_cases s st h with ⟨_, rfl⟩ | ⟨_, hsp, rfl⟩ | ⟨_, _, rfl⟩
    · exact hs
    · exact Nat.le_of_lt hsp
    · exact hs
  · rw [e] at h
    split_ifs at h with hsp
    simp only [Option.some.injEq] at h
    subst h
    show u8 (s.SP + 1) ≤ 16
    unfold u8
    omega
  · rw [e] at h
    simp only [Option.some.injEq] at h
    subst h
    show (exec8 s).SP ≤ 16
    rw [exec8_SP]
    exact hs
  · rw [e] at h
    rw [execD_SP s st h]
    exact hs
  · rw [e] at h
    simp only [Option.some.injEq] at h
    subst h
    rw [execE_SP]
    exact hs
  · rw [e] at h
    rw [(execF_keeps s st h).1.1]
    exact hs
  · rw [e] at h
    simp only [Option.some.injEq] at h
    subst h
    show t.SP ≤ 16
    rw [ht]
    exact hs

/-- Outside the clear case of class `0x0000` and class `0xD000`, one decoded
instruction leaves the display buffer and the redraw flag alone. -/
theorem execute_sameDisplay (rnd : Nat) (s : State) (st : Step) (h : execute rnd s = some st)
    (h0 : ¬ (s.opcode &&& 0xF000 = 0x0000 ∧ s.opcode &&& 0x000F = 0x0000))
    (hD : s.opcode &&& 0xF000 ≠ 0xD000) : sameDisplay s st.state := by
  rcases execute_shape rnd s with ⟨c, e⟩ | ⟨_, e⟩ | ⟨_, e⟩ | ⟨c, e⟩ | ⟨_, e⟩ | ⟨_, e⟩ |
    ⟨_, _, _, _, _, _, t, e, ht⟩
  · rw [e] at h
    rcases exec0_cases s st h with ⟨n, rfl⟩ | ⟨_, _, rfl⟩ | ⟨_, _, rfl⟩
    · exact absurd ⟨c, n⟩ h0
    · exact ⟨rfl, rfl⟩
    · exact ⟨rfl, rfl⟩
  · rw [e] at h
    split_ifs at h with hsp
    simp only [Option.some.injEq] at h
    subst h
    exact ⟨rfl, rfl⟩
  · rw [e] at h
    simp only [Option.some.injEq] at h
    subst h
    exact exec8_sameDisplay s
  · exact absurd c hD
  · rw [e] at h
    simp only [Option.some.injEq] at h
    subst h
    exact execE_sameDisplay s
  · rw [e] at h
    exact (execF_keeps s st h).2
  · rw [e] at h
    simp only [Option.some.injEq] at h
    subst h
    refine ⟨?_, ?_⟩
    · show t.gfx = s.gfx
      rw [ht]
    · show t.draw_flag = s.draw_flag
      rw [ht]

theorem drawPixel_binary (X Y p r c : Nat) (s : State) (h : binaryDisplay s) :
    binaryDisplay (drawPixel X Y p r c s) := by
  unfold drawPixel
  have hi := h _ (gfxIndex_lt X Y c r)
  have key : ∀ g : Nat, g = 0 ∨ g = 1 → u8 (g ^^^ 1) = 0 ∨ u8 (g ^^^ 1) = 1 := by
    rintro g (rfl | rfl)
    · exact Or.inr rfl
    · exact Or.inl rfl
  split_ifs
  all_goals
    intro i hlt
    first
      | exact h i hlt
      | (by_cases e : i = gfxIndex X Y c r
         · subst e
           simp only [write_same]
           exact key _ hi
         · simp only [write_other _ _ _ _ e]
           exact h i hlt)

/-- One decoded instruction keeps every display cell at 0 or 1. -/
theorem execute_binary (rnd : Nat) (s : State) (st : Step) (h : execute rnd s = some st)
    (hb : binaryDisplay s) : binaryDisplay st.state := by
  by_cases hD : s.opcode &&& 0xF000 = 0xD000
  · rw [execute_D rnd s hD] at h
    unfold execD at h
    simp only [Option.map_eq_some'] at h
    obtain ⟨u, hu, rfl⟩ := h
    have hu' : binaryDisplay u := by
      refine forUpToM_inv binaryDisplay _ _ ?_ _ _ hu hb
      intro i a b hab ha
      unfold drawRow at hab
      split_ifs at hab
      simp only [Option.some.injEq] at hab
      subst hab
      exact forUpTo_inv binaryDisplay 8 _ (fun c w hw => drawPixel_binary _ _ _ _ c w hw) a ha
    exact hu'
  by_cases h0 : s.opcode &&& 0xF000 = 0x0000 ∧ s.opcode &&& 0x000F = 0x0000
  · rw [execute_0 rnd s h0.1] at h
    rcases exec0_cases s st h with ⟨_, rfl⟩ | ⟨n, _, rfl⟩ | ⟨n, _, rfl⟩
    · intro i hi
      left
      show (if i < 64 * 32 then 0 else s.gfx i) = 0
      rw [if_pos hi]
    · rw [h0.2] at n; cases n
    · exact absurd h0.2 n
  · have hd := execute_sameDisplay rnd s st h h0 hD
    intro i hi
    rw [hd.1]
    exact hb i hi

/-- A completed cycle is a fetch inside memory followed by one decoded
instruction and, unless the cycle returned early, the timer update. -/
theorem emulate_cycle_some (rnd : Nat) (s t : State) (h : emulate_cycle rnd s = some t) :
    s.PC + 1 < 4096 ∧ ∃ st, execute rnd { s with opcode := fetch s } = some st ∧
      (t = update_timers st.state ∨ t = st.state) := by
  unfold emulate_cycle at h
  split_ifs at h with hpc
  refine ⟨hpc, ?_⟩
  split at h
  · cases h
  · next u hu =>
    simp only [Option.some.injEq] at h
    exact ⟨_, hu, Or.inl h.symm⟩
  · next u hu =>
    simp only [Option.some.injEq] at h
    exact ⟨_, hu, Or.inr h.symm⟩

theorem emulate_cycle_SP (rnd : Nat) (s t : State) (h : emulate_cycle rnd s = some t)
    (hs : s.SP ≤ 16) : t.SP ≤ 16 := by
  obtain ⟨_, st, hst, ht | ht⟩ := emulate_cycle_some rnd s t h
  · rw [ht, update_timers_SP]
    exact execute_SP rnd _ st hst hs
  · rw [ht]
    exact execute_SP rnd _ st hst hs

theorem load_program_frame (file : Option ProgramFile) (s t : State)
    (h : load_program file s = some t) : t = { s with memory := t.memory } := by
  cases file with
  | none => simp [load_program] at h
  | some f =>
    simp only [load_program] at h
    rw [forUpTo_memory_from 0x200 _ (fun i => f.bytes.getD i 0)] at h
    split_ifs at h
    simp only [Option.some.injEq] at h
    rw [← h]

theorem reachable_SP (s : State) (h : Reachable s) : s.SP ≤ 16 := by
  induction h with
  | reset s => rw [initialize_chip8_eq]; exact Nat.zero_le _
  | load file s t _ hl ih => rw [load_program_frame file s t hl]; exact ih
  | cycle rnd s t _ hc ih => exact emulate_cycle_SP rnd s t hc ih
  | keys s k _ ih => exact ih
  | redrawn s _ ih => exact ih

/-- C11 as stated fails. The call `2300` with `SP = 16` indexes `stack[16]`
and the return `00EE` with `SP = 0` indexes `stack[255]` (`SP--` wraps on 8
bits): both are outside the 16 slots, and the cycle is an out-of-bounds access,
not an error exit. -/
theorem stack_unchecked_example :
    stackIndex overflowDemo = some 16 ∧ outOfBounds (emulate_cycle 0 overflowDemo) ∧
    stackIndex underflowDemo = some 255 ∧ outOfBounds (emulate_cycle 0 underflowDemo) := by
  decide

/-- C11, amended. The code does not check the stack pointer. A call with
`SP ≥ 16` indexes `stack[SP]` and a return with `SP = 0` indexes `stack[255]`,
outside the stack, and the cycle is an out-of-bounds access; a call with
`SP < 16` and a return with `1 ≤ SP ≤ 16` index a slot inside the stack and do
not leave it. In every state reachable from reset by cycles without an
out-of-bounds access, `SP ≤ 16`. -/
theorem stack_unchecked :
    (∀ rnd s, s.PC + 1 < 4096 → fetch s &&& 0xF000 = 0x2000 →
      (16 ≤ s.SP → stackIndex s = some s.SP ∧ outOfBounds (emulate_cycle rnd s)) ∧
      (s.SP < 16 → stackIndex s = some s.SP ∧ ¬ outOfBounds (emulate_cycle rnd s))) ∧
    (∀ rnd s, s.PC + 1 < 4096 → fetch s &&& 0xF000 = 0x0000 → fetch s &&& 0x000F = 0x000E →
      (s.SP = 0 → stackIndex s = some 255 ∧ outOfBounds (emulate_cycle rnd s)) ∧
      (1 ≤ s.SP → s.SP ≤ 16 →
        stackIndex s = some (s.SP - 1) ∧ ¬ outOfBounds (emulate_cycle rnd s))) ∧
    (∀ s, Reachable s → s.SP ≤ 16) := by
  refine ⟨?_, ?_, reachable_SP⟩
  · intro rnd s hpc hc
    have hi : stackIndex s = some s.SP := by simp [stackIndex, hc]
    refine ⟨fun h => ⟨hi, ?_⟩, fun h => ⟨hi, ?_⟩⟩
    · rw [emulate_cycle_eq rnd s hpc]
      simp [execute, hc, show ¬ s.SP < 16 by omega, outOfBounds]
    · rw [emulate_cycle_eq rnd s hpc, execute_2 rnd { s with opcode := fetch s } hc h]
      simp [outOfBounds]
  · intro rnd s hpc hc hn
    refine ⟨fun h => ⟨?_, ?_⟩, fun h1 h2 => ⟨?_, ?_⟩⟩
    · simp [stackIndex, hc, hn, h, u8]
    · rw [emulate_cycle_eq rnd s hpc, execute_0 rnd { s with opcode := fetch s } hc]
      simp [exec0, hn, h, u8, outOfBounds]
    · have e : u8 (s.SP + 255) = s.SP - 1 := by unfold u8; omega
      simp [stackIndex, hc, hn, e]
    · have e : u8 (s.SP + 255) = s.SP - 1 := by unfold u8; omega
      rw [emulate_cycle_eq rnd s hpc, execute_0 rnd { s with opcode := fetch s } hc]
      simp [exec0, hn, e, show s.SP - 1 < 16 by omega, outOfBounds]

/-- C11 at concrete states: the call at `SP = 16`, the return at `SP = 0`, and
the stack pointer right after reset. -/
theorem stack_unchecked_witness :
    (stackIndex overflowDemo = some overflowDemo.SP ∧
      outOfBounds (emulate_cycle 0 overflowDemo)) ∧
    (stackIndex underflowDemo = some 255 ∧ outOfBounds (emulate_cycle 0 underflowDemo)) ∧
    (stackIndex callDemo = some callDemo.SP ∧ ¬ outOfBounds (emulate_cycle 0 callDemo)) ∧
    (initialize_chip8 blank).SP ≤ 16 :=
  ⟨(stack_unchecked.1 0 overflowDemo (by decide) (by decide)).1 (by decide),
    (stack_unchecked.2.1 0 underflowDemo (by decide) (by decide) (by decide)).1 (by decide),
    (stack_unchecked.1 0 callDemo (by decide) (by decide)).2 (by decide),
    stack_unchecked.2.2 _ (Reachable.reset blank)⟩

/-! ## C12: the fetch is not guarded -/

/-- C12 as stated fails. With `PC = 4095` the fetch indexes `memory[4096]`,
one past the 4096 bytes, and the cycle is an out-of-bounds access, not an
error exit. -/
theorem fetch_unguarded_example :
    (fetchIndices pcEndDemo).2 = 4096 ∧ outOfBounds (emulate_cycle 0 pcEndDemo) := by
  decide

/-- C12, amended. The fetch is not guarded: for every state with `PC ≥ 4095`
it indexes `memory[PC + 1]` at or beyond 4096 and the cycle is an
out-of-bounds access; for every state with `PC ≤ 4094` both indices are inside
the memory and the fetched opcode equals `memory[PC] * 256 + memory[PC + 1]`. -/
theorem fetch_unguarded (rnd : Nat) (s : State) (hwf : WF s) :
    (4095 ≤ s.PC → 4096 ≤ (fetchIndices s).2 ∧ outOfBounds (emulate_cycle rnd s)) ∧
    (s.PC ≤ 4094 → (fetchIndices s).1 < 4096 ∧ (fetchIndices s).2 < 4096 ∧
      fetch s = s.memory s.PC * 256 + s.memory (s.PC + 1)) := by
  constructor
  · intro h
    refine ⟨by show 4096 ≤ s.PC + 1; omega, ?_⟩
    simp [emulate_cycle, show ¬ s.PC + 1 < 4096 by omega, outOfBounds]
  · intro h
    refine ⟨by show s.PC < 4096; omega, by show s.PC + 1 < 4096; omega, ?_⟩
    exact fetch_eq s (hwf.memory_lt _) (hwf.memory_lt _)

theorem blank_wf : WF blank := by
  constructor <;> intros <;> simp only [blank] <;> omega

theorem pcEndDemo_wf : WF pcEndDemo := by
  constructor <;> intros <;> simp only [pcEndDemo, blank] <;> omega

theorem timerDemo_wf : WF timerDemo := by
  constructor <;> intros <;> simp only [timerDemo, poke, blank, write] <;>
    (repeat' split) <;> omega

/-- C12 at concrete states: `PC = 4095` on a zeroed machine, and `6005` at `PC = 0x200`. -/
theorem fetch_unguarded_witness :
    (4096 ≤ (fetchIndices pcEndDemo).2 ∧ outOfBounds (emulate_cycle 0 pcEndDemo)) ∧
    ((fetchIndices timerDemo).1 < 4096 ∧ (fetchIndices timerDemo).2 < 4096 ∧
      fetch timerDemo = timerDemo.memory timerDemo.PC * 256
        + timerDemo.memory (timerDemo.PC + 1)) ∧
    fetch timerDemo = 0x6005 :=
  ⟨(fetch_unguarded 0 pcEndDemo pcEndDemo_wf).1 (by decide),
    (fetch_unguarded 0 timerDemo timerDemo_wf).2 (by decide),
    by decide⟩

/-! ## C17: which opcodes touch the display -/

/-- C17 at the failing input. The opcode `0x0000` (zeroed memory) is neither
`0x00E0` nor `0xDXYN`, yet one `emulate_cycle` on it zeroes a set display cell
and sets the redraw flag: the case commented `0x00E0` in class `0x0000` is
selected by the low nibble alone, where the classes `0xE000` and `0xF000`
select on the low byte. -/
theorem zero_opcode_clears :
    fetch zeroOpcodeDemo = 0x0000 ∧ zeroOpcodeDemo.gfx 2047 = 1 ∧
    zeroOpcodeDemo.draw_flag = false ∧
    (emulate_cycle 0 zeroOpcodeDemo).map (fun t => (t.gfx 2047, t.draw_flag, t.PC))
      = some (0, true, 0x202) := by
  refine ⟨by decide, by decide, by decide, ?_⟩
  rw [emulate_cycle_eq 0 zeroOpcodeDemo (by decide),
    execute_0 0 { zeroOpcodeDemo with opcode := fetch zeroOpcodeDemo } (by decide)]
  unfold exec0
  rw [clear_gfx_eq, if_pos (by decide)]
  decide

/-- The display frame of the code as written. For every fetched opcode outside
class `0x0` with low nibble 0 and outside class `0xD`, a completed cycle leaves
the display buffer and the redraw flag unchanged; on an opcode of class `0x0`
with low nibble 0 it zeroes all 2048 cells and sets the redraw flag. -/
theorem display_frame (rnd : Nat) (s t : State) (h : emulate_cycle rnd s = some t) :
    (¬ (fetch s &&& 0xF000 = 0x0000 ∧ fetch s &&& 0x000F = 0x0000) →
      fetch s &&& 0xF000 ≠ 0xD000 → t.gfx = s.gfx ∧ t.draw_flag = s.draw_flag) ∧
    (fetch s &&& 0xF000 = 0x0000 → fetch s &&& 0x000F = 0x0000 →
      (∀ i, i < 64 * 32 → t.gfx i = 0) ∧ t.draw_flag = true) := by
  obtain ⟨_, st, hst, ht⟩ := emulate_cycle_some rnd s t h
  have hg : t.gfx = st.state.gfx ∧ t.draw_flag = st.state.draw_flag := by
    rcases ht with ht | ht <;> rw [ht]
    · exact ⟨update_timers_gfx _, update_timers_draw_flag _⟩
    · exact ⟨rfl, rfl⟩
  constructor
  · intro h0 hD
    obtain ⟨e1, e2⟩ := execute_sameDisplay rnd _ st hst h0 hD
    exact ⟨hg.1.trans e1, hg.2.trans e2⟩
  · intro h0 hn
    rw [execute_0 rnd _ h0] at hst
    rcases exec0_cases _ st hst with ⟨_, rfl⟩ | ⟨n, _, rfl⟩ | ⟨n, _, rfl⟩
    · refine ⟨fun i hi => ?_, hg.2⟩
      rw [hg.1]
      show (if i < 64 * 32 then 0 else s.gfx i) = 0
      rw [if_pos hi]
    · exact absurd (hn.symm.trans n) (by decide)
    · exact absurd hn n

/-- The display frame at concrete states: `6005` leaves the display and the
redraw flag alone, `0000` clears. -/
theorem display_frame_witness :
    (∀ t, emulate_cycle 0 timerDemo = some t →
      t.gfx = timerDemo.gfx ∧ t.draw_flag = timerDemo.draw_flag) ∧
    (∀ t, emulate_cycle 0 zeroOpcodeDemo = some t →
      (∀ i, i < 64 * 32 → t.gfx i = 0) ∧ t.draw_flag = true) :=
  ⟨fun t h => (display_frame 0 timerDemo t h).1 (by decide) (by decide),
    fun t h => (display_frame 0 zeroOpcodeDemo t h).2 (by decide) (by decide)⟩

/-! ## Memory frame of a cycle that stays inside the arrays -/

theorem forUpToM_inv_lt {σ : Type} (P : σ → Prop) (n : Nat) (body : Nat → σ → Option σ)
    (hb : ∀ i u v, i < n → body i u = some v → P u → P v) (s t : σ)
    (ht : forUpToM n body s = some t) (h : P s) : P t := by
  induction n generalizing t with
  | zero =>
    simp only [forUpToM, Option.some.injEq] at ht
    subst ht
    exact h
  | succ n ih =>
    simp only [forUpToM] at ht
    cases hm : forUpToM n body s with
    | none => rw [hm] at ht; simp at ht
    | some u =>
      rw [hm] at ht
      exact hb n u t (Nat.lt_succ_self n) ht
        (ih (fun i a b hi => hb i a b (Nat.lt_succ_of_lt hi)) u hm)

/-- Memory after the store loop of `FX55`, when the loop stays inside memory:
`I` is unchanged and the bytes outside `I..I+X` are unchanged. -/
theorem dump_loop_outside (X : Nat) (s u : State)
    (hu : forUpToM (X + 1) (fun i s =>
        if s.I + i < 4096 then some { s with memory := write s.memory (s.I + i) (s.V i) }
        else none) s = some u) :
    u.I = s.I ∧ ∀ a, a < s.I ∨ s.I + X < a → u.memory a = s.memory a := by
  refine forUpToM_inv_lt
    (fun u => u.I = s.I ∧ ∀ a, a < s.I ∨ s.I + X < a → u.memory a = s.memory a)
    _ _ ?_ _ _ hu ⟨rfl, fun _ _ => rfl⟩
  intro i a b hi hab ha
  split_ifs at hab
  simp only [Option.some.injEq] at hab
  subst hab
  refine ⟨ha.1, fun c hc => ?_⟩
  show write a.memory (a.I + i) (a.V i) c = s.memory c
  rw [write_other _ _ _ _ (by rw [ha.1]; omega)]
  exact ha.2 c hc

/-- The load loop of `FX65` does not write memory. -/
theorem load_loop_memory (n : Nat) (s u : State)
    (hu : forUpToM n (fun i s =>
        if s.I + i < 4096 then some { s with V := write s.V i (s.memory (s.I + i)) }
        else none) s = some u) : u.memory = s.memory := by
  refine forUpToM_inv (fun u => u.memory = s.memory) _ _ ?_ _ _ hu rfl
  intro i a b hab ha
  split_ifs at hab
  simp only [Option.some.injEq] at hab
  subst hab
  exact ha

/-- Class `0xF000`: memory is written by `FX33` within `I..I+2`, by `FX55`
within `I..I+X`, and by no other opcode of the class. -/
theorem execF_memory (s : State) (st : Step) (h : execF s = some st) :
    (s.opcode &&& 0x00FF ≠ 0x33 → s.opcode &&& 0x00FF ≠ 0x55 → st.state.memory = s.memory) ∧
    (s.opcode &&& 0x00FF = 0x33 →
      ∀ a, a < s.I ∨ s.I + 2 < a → st.state.memory a = s.memory a) ∧
    (s.opcode &&& 0x00FF = 0x55 →
      ∀ a, a < s.I ∨ s.I + opX s.opcode < a → st.state.memory a = s.memory a) := by
  have same : ∀ {lo : Nat}, s.opcode &&& 0x00FF = lo → lo ≠ 0x33 → lo ≠ 0x55 →
      st.state.memory = s.memory →
      (s.opcode &&& 0x00FF ≠ 0x33 → s.opcode &&& 0x00FF ≠ 0x55 → st.state.memory = s.memory) ∧
      (s.opcode &&& 0x00FF = 0x33 →
        ∀ a, a < s.I ∨ s.I + 2 < a → st.state.memory a = s.memory a) ∧
      (s.opcode &&& 0x00FF = 0x55 →
        ∀ a, a < s.I ∨ s.I + opX s.opcode < a → st.state.memory a = s.memory a) := by
    intro lo h1 h2 h3 hm
    exact ⟨fun _ _ => hm, fun c => absurd (h1.symm.trans c) h2,
      fun c => absurd (h1.symm.trans c) h3⟩
  by_cases h07 : s.opcode &&& 0x00FF = 0x07
  · simp [execF, h07] at h
    subst h
    exact same h07 (by decide) (by decide) rfl
  by_cases h0A : s.opcode &&& 0x00FF = 0x0A
  · cases hf : firstKey s.key 16 0 with
    | none =>
      simp [execF, h0A, hf] at h
      subst h
      exact same h0A (by decide) (by decide) rfl
    | some k =>
      simp [execF, h0A, hf] at h
      subst h
      exact same h0A (by decide) (by decide) rfl
  by_cases h15 : s.opcode &&& 0x00FF = 0x15
  · simp [execF, h15] at h
    subst h
    exact same h15 (by decide) (by decide) rfl
  by_cases h18 : s.opcode &&& 0x00FF = 0x18
  · simp [execF, h18] at h
    subst h
    exact same h18 (by decide) (by decide) rfl
  by_cases h1E : s.opcode &&& 0x00FF = 0x1E
  · simp [execF, h1E] at h
    subst h
    exact same h1E (by decide) (by decide) rfl
  by_cases h29 : s.opcode &&& 0x00FF = 0x29
  · simp [execF, h29] at h
    subst h
    exact same h29 (by decide) (by decide) rfl
  by_cases h33 : s.opcode &&& 0x00FF = 0x33
  · simp [execF, h33] at h
    obtain ⟨_, h⟩ := h
    subst h
    refine ⟨fun c => absurd h33 c, fun _ a ha => ?_, fun c => absurd (h33.symm.trans c) (by decide)⟩
    show write (write (write s.memory s.I _) (s.I + 1) _) (s.I + 2) _ a = s.memory a
    rw [write_other _ _ _ _ (by omega), write_other _ _ _ _ (by omega),
      write_other _ _ _ _ (by omega)]
  by_cases h55 : s.opcode &&& 0x00FF = 0x55
  · simp [execF, h55] at h
    obtain ⟨u, hu, h⟩ := h
    subst h
    refine ⟨fun _ c => absurd h55 c, fun c => absurd (h55.symm.trans c) (by decide),
      fun _ a ha => ?_⟩
    exact (dump_loop_outside (opX s.opcode) s u hu).2 a ha
  by_cases h65 : s.opcode &&& 0x00FF = 0x65
  · simp [execF, h65] at h
    obtain ⟨u, hu, h⟩ := h
    subst h
    exact same h65 (by decide) (by decide) (load_loop_memory _ s u hu)
  simp [execF, h07, h0A, h15, h18, h1E, h29, h33, h55, h65] at h
  subst h
  exact ⟨fun _ _ => rfl, fun c => absurd c h33, fun c => absurd c h55⟩

/-- One decoded instruction writes memory only when it is `FX33` (within
`I..I+2`) or `FX55` (within `I..I+X`). -/
theorem execute_memory (rnd : Nat) (s : State) (st : Step) (h : execute rnd s = some st) :
    (¬ isFX s.opcode 0x33 → ¬ isFX s.opcode 0x55 → st.state.memory = s.memory) ∧
    (isFX s.opcode 0x33 → ∀ a, a < s.I ∨ s.I + 2 < a → st.state.memory a = s.memory a) ∧
    (isFX s.opcode 0x55 →
      ∀ a, a < s.I ∨ s.I + opX s.opcode < a → st.state.memory a = s.memory a) := by
  have other : s.opcode &&& 0xF000 ≠ 0xF000 → st.state.memory = s.memory →
      (¬ isFX s.opcode 0x33 → ¬ isFX s.opcode 0x55 → st.state.memory = s.memory) ∧
      (isFX s.opcode 0x33 → ∀ a, a < s.I ∨ s.I + 2 < a → st.state.memory a = s.memory a) ∧
      (isFX s.opcode 0x55 →
        ∀ a, a < s.I ∨ s.I + opX s.opcode < a → st.state.memory a = s.memory a) := by
    intro hc hm
    exact ⟨fun _ _ => hm, fun c => absurd c.1 hc, fun c => absurd c.1 hc⟩
  rcases execute_shape rnd s with ⟨c, e⟩ | ⟨c, e⟩ | ⟨c, e⟩ | ⟨c, e⟩ | ⟨c, e⟩ | ⟨c, e⟩ |
    ⟨_, _, _, _, _, c, t, e, ht⟩
  · rw [e] at h
    refine other (by rw [c]; decide) ?_
    rcases exec0_cases s st h with ⟨_, rfl⟩ | ⟨_, _, rfl⟩ | ⟨_, _, rfl⟩ <;> rfl
  · rw [e] at h
    refine other (by rw [c]; decide) ?_
    split_ifs at h with hsp
    simp only [Option.some.injEq] at h
    subst h
    rfl
  · rw [e] at h
    refine other (by rw [c]; decide) ?_
    simp only [Option.some.injEq] at h
    subst h
    show (exec8 s).memory = s.memory
    rw [exec8_frame]
  · rw [e] at h
    refine other (by rw [c]; decide) ?_
    rw [execD_frame s st h]
  · rw [e] at h
    refine other (by rw [c]; decide) ?_
    simp only [Option.some.injEq] at h
    subst h
    rw [execE_frame]
  · rw [e] at h
    obtain ⟨m1, m2, m3⟩ := execF_memory s st h
    exact ⟨fun n33 n55 => m1 (fun x => n33 ⟨c, x⟩) (fun x => n55 ⟨c, x⟩),
      fun x => m2 x.2, fun x => m3 x.2⟩
  · rw [e] at h
    refine other c ?_
    simp only [Option.some.injEq] at h
    subst h
    show t.memory = s.memory
    rw [ht]

/-- A cycle that stays inside the arrays writes memory only on `FX33` (within
`I..I+2`) and on `FX55` (within `I..I+X`). -/
theorem emulate_cycle_memory (rnd : Nat) (s t : State) (h : emulate_cycle rnd s = some t) :
    (¬ isFX (fetch s) 0x33 → ¬ isFX (fetch s) 0x55 → t.memory = s.memory) ∧
    (isFX (fetch s) 0x33 → ∀ a, a < s.I ∨ s.I + 2 < a → t.memory a = s.memory a) ∧
    (isFX (fetch s) 0x55 →
      ∀ a, a < s.I ∨ s.I + opX (fetch s) < a → t.memory a = s.memory a) := by
  obtain ⟨_, st, hst, ht⟩ := emulate_cycle_some rnd s t h
  have hm : t.memory = st.state.memory := by
    rcases ht with ht | ht <;> rw [ht]
    exact update_timers_memory _
  obtain ⟨m1, m2, m3⟩ := execute_memory rnd _ st hst
  rw [hm]
  exact ⟨m1, m2, m3⟩

/-! ## Reads outside an array: agreement with `emulate_cycle` -/

theorem emulate_cycle_reads_eq (o : Oob) (rnd : Nat) (s : State) :
    emulate_cycle_reads o rnd s
      = (execute_reads o rnd { s with opcode := fetch_reads o s }).map Step.finish := by
  unfold emulate_cycle_reads
  cases execute_reads o rnd { s with opcode := fetch_reads o s } with
  | none => rfl
  | some st => cases st <;> rfl

theorem exec0_reads_binary (o : Oob) (s : State) (hb : binaryDisplay s) :
    binaryDisplay (exec0_reads o s).state := by
  unfold exec0_reads
  rw [clear_gfx_eq]
  split_ifs
  · intro i hi
    left
    show (if i < 64 * 32 then 0 else s.gfx i) = 0
    rw [if_pos hi]
  · exact hb
  · exact hb

theorem execD_reads_binary (o : Oob) (s : State) (hb : binaryDisplay s) :
    binaryDisplay (execD_reads o s).state := by
  have hf : ∀ (X Y n : Nat) (u : State), binaryDisplay u →
      binaryDisplay (forUpTo n (drawRow_reads o X Y) u) := by
    intro X Y n u hu
    refine forUpTo_inv binaryDisplay n _ ?_ u hu
    intro i a ha
    exact forUpTo_inv binaryDisplay 8 _ (fun c w hw => drawPixel_binary _ _ _ _ c w hw) a ha
  unfold execD_reads
  exact hf _ _ _ _ hb

theorem execute_reads_binary (o : Oob) (rnd : Nat) (s : State) (st : Step)
    (h : execute_reads o rnd s = some st) (hb : binaryDisplay s) : binaryDisplay st.state := by
  unfold execute_reads at h
  by_cases h0 : s.opcode &&& 0xF000 = 0x0000
  · rw [if_pos h0, Option.some.injEq] at h
    rw [← h]
    exact exec0_reads_binary o s hb
  rw [if_neg h0] at h
  by_cases hD : s.opcode &&& 0xF000 = 0xD000
  · rw [if_pos hD, Option.some.injEq] at h
    rw [← h]
    exact execD_reads_binary o s hb
  rw [if_neg hD] at h
  by_cases hF : s.opcode &&& 0xF000 = 0xF000
  · rw [if_pos hF] at h
    unfold execF_reads at h
    by_cases h65 : s.opcode &&& 0x00FF = 0x65
    · rw [if_pos h65, Option.some.injEq] at h
      rw [← h]
      refine forUpTo_inv binaryDisplay _ _ ?_ s hb
      intro i u hu
      exact hu
    · rw [if_neg h65] at h
      intro i hi
      rw [(execF_keeps s st h).2.1]
      exact hb i hi
  rw [if_neg hF] at h
  exact execute_binary rnd s st h hb

/-- A cycle that reads outside the arrays, and stores inside them, keeps every
display cell at 0 or 1. -/
theorem emulate_cycle_reads_binary (o : Oob) (rnd : Nat) (s t : State)
    (h : emulate_cycle_reads o rnd s = some t) (hb : binaryDisplay s) : binaryDisplay t := by
  rw [emulate_cycle_reads_eq] at h
  simp only [Option.map_eq_some'] at h
  obtain ⟨st, hst, rfl⟩ := h
  have hg : st.finish.gfx = st.state.gfx := by
    cases st
    · exact update_timers_gfx _
    · rfl
  intro i hi
  rw [hg]
  exact execute_reads_binary o rnd _ st hst hb i hi

/-! ## C18: the display invariant -/

end Chip8
